import Mathlib

/-!
Verification of the resilient multi-provider orchestration core of the
Audium content-to-podcast application.

The development shallowly embeds the relevant TypeScript modules:
  * `src/lib/error-handler.ts`   — error classifier and retry controller
  * `src/lib/robust-scraper.ts`  — enhanced-tts engine: chunk planner
    (`splitScript`), provider fallback order, per-chunk synthesis and
    reassembly (`generateWithElevenLabs`), aggregate failure path
    (`generateAudio`)
  * `realistic-voice-methods.ts` — fine chunk planner
    (`splitEnhancedScript`), silence generation (`generateNaturalPause`),
    enhancement pass fallback (`enhanceAudioForRealism`)
  * the TTS route handler — clamping of caller-supplied voice parameters

Strings are modelled as `List Char` (or Lean `String` where maps of
string fields are concerned); JavaScript numbers used for delays and
voice parameters are modelled as `ℚ`; audio buffers are `List ℕ` (byte
sequences); external effects (the ffmpeg run, the provider HTTP calls,
`Math.random`, clock reads) are oracles passed in as explicit function
arguments.
-/

namespace Audium

/-! ## Basic character and string helpers (JS semantics) -/

/-- Whitespace as used by JavaScript `trim` / `\s` (ASCII portion). -/
def isWs (c : Char) : Bool :=
  c == ' ' || c == '\t' || c == '\n' || c == '\r'

/-- Sentence terminator characters of the chunk planners: `.`, `!`, `?`. -/
def isTerminator (c : Char) : Bool :=
  c == '.' || c == '!' || c == '?'

/-- JavaScript `String.prototype.trim` on a character list. -/
def trimChars (s : List Char) : List Char :=
  ((s.dropWhile isWs).reverse.dropWhile isWs).reverse

/-- Remove every whitespace character ("whitespace normalization" in the
strongest sense used by the chunk-planner invariant). -/
def stripWs (s : List Char) : List Char :=
  s.filter (fun c => !(isWs c))

/-- Remove whitespace and sentence terminators. -/
def stripPW (s : List Char) : List Char :=
  s.filter (fun c => !(isWs c) && !(isTerminator c))

/-- Does `l` start with `p`? (helper for the JS `includes` model). -/
def leadsWith : List Char → List Char → Bool
  | _, [] => true
  | [], _ :: _ => false
  | c :: l, d :: p => c == d && leadsWith l p

/-- JavaScript `String.prototype.includes` on character lists:
`sub` occurs contiguously inside `s`. -/
def containsSeq : List Char → List Char → Bool
  | l, sub =>
    match l with
    | [] => sub.isEmpty
    | _ :: t => leadsWith l sub || containsSeq t sub

/-- JavaScript `includes` on Lean strings. -/
def jsIncludes (s sub : String) : Bool :=
  containsSeq s.data sub.data

/-! ## Error classifier (`categorizeError`, error-handler.ts) -/

/-- The `ErrorInfo` record produced by `categorizeError`.  The JS
`context` object (caller context spread together with `originalError`
and, in the unknown fallback, `stack`) is modelled as an association
list. -/
structure ErrorInfo where
  code : String
  message : String
  severity : String
  context : List (String × String)
  suggestion : String
  retryable : Bool
  timestamp : String
  deriving DecidableEq, Repr

/-- Shallow embedding of `RobustErrorHandler.categorizeError`.  The JS
function receives an `Error` (its `message` and `stack`) and a context
record; `new Date().toISOString()` is the `timestamp` argument.  The
ordered rule table is reproduced verbatim from the source. -/
def categorizeError (msg stack : String) (ctx : List (String × String))
    (timestamp : String) : ErrorInfo :=
  if jsIncludes msg "fetch" || jsIncludes msg "network" || jsIncludes msg "ECONNREFUSED" then
    { code := "NETWORK_ERROR", message := "Network connectivity issue",
      severity := "medium", context := ctx ++ [("originalError", msg)],
      suggestion := "Check internet connection and try again",
      retryable := true, timestamp := timestamp }
  else if jsIncludes msg "rate limit" || jsIncludes msg "429" || jsIncludes msg "quota" then
    { code := "RATE_LIMIT", message := "API rate limit exceeded",
      severity := "medium", context := ctx ++ [("originalError", msg)],
      suggestion := "Wait before making more requests or upgrade your API plan",
      retryable := true, timestamp := timestamp }
  else if jsIncludes msg "auth" || jsIncludes msg "401" || jsIncludes msg "API_KEY" then
    { code := "AUTH_ERROR", message := "Authentication failed",
      severity := "high", context := ctx ++ [("originalError", msg)],
      suggestion := "Check API keys and credentials",
      retryable := false, timestamp := timestamp }
  else if jsIncludes msg "timeout" || jsIncludes msg "ETIMEDOUT" then
    { code := "TIMEOUT", message := "Operation timed out",
      severity := "medium", context := ctx ++ [("originalError", msg)],
      suggestion := "Try again with a longer timeout or simpler request",
      retryable := true, timestamp := timestamp }
  else if jsIncludes msg "503" || jsIncludes msg "502" || jsIncludes msg "504" then
    { code := "SERVICE_UNAVAILABLE", message := "Service temporarily unavailable",
      severity := "medium", context := ctx ++ [("originalError", msg)],
      suggestion := "The service is experiencing issues. Try again later",
      retryable := true, timestamp := timestamp }
  else if jsIncludes msg "content policy" || jsIncludes msg "safety" || jsIncludes msg "blocked" then
    { code := "CONTENT_POLICY", message := "Content violates service policies",
      severity := "medium", context := ctx ++ [("originalError", msg)],
      suggestion := "Modify your content to comply with service policies",
      retryable := false, timestamp := timestamp }
  else if jsIncludes msg "validation" || jsIncludes msg "invalid" || jsIncludes msg "400" then
    { code := "VALIDATION_ERROR", message := "Invalid input or parameters",
      severity := "low", context := ctx ++ [("originalError", msg)],
      suggestion := "Check your input parameters and try again",
      retryable := false, timestamp := timestamp }
  else if jsIncludes msg "playwright" || jsIncludes msg "browser" || jsIncludes msg "page" then
    { code := "BROWSER_ERROR", message := "Browser automation error",
      severity := "medium", context := ctx ++ [("originalError", msg)],
      suggestion := "The website may be blocking automated access. Try a different approach",
      retryable := true, timestamp := timestamp }
  else if jsIncludes msg "ENOENT" || jsIncludes msg "EACCES" || jsIncludes msg "file" then
    { code := "FILE_SYSTEM_ERROR", message := "File system operation failed",
      severity := "medium", context := ctx ++ [("originalError", msg)],
      suggestion := "Check file permissions and disk space",
      retryable := false, timestamp := timestamp }
  else if jsIncludes msg "500" || jsIncludes msg "internal" then
    { code := "INTERNAL_SERVER_ERROR", message := "Internal server error",
      severity := "high", context := ctx ++ [("originalError", msg)],
      suggestion := "This is a server-side issue. Please try again later",
      retryable := true, timestamp := timestamp }
  else
    { code := "UNKNOWN_ERROR",
      message := if msg == "" then "An unknown error occurred" else msg,
      severity := "medium",
      context := ctx ++ [("originalError", msg), ("stack", stack)],
      suggestion := "Please try again or contact support if the issue persists",
      retryable := false, timestamp := timestamp }

/-- The eleven classification codes the implementation can emit. -/
def allErrorCodes : List String :=
  ["NETWORK_ERROR", "RATE_LIMIT", "AUTH_ERROR", "TIMEOUT",
   "SERVICE_UNAVAILABLE", "CONTENT_POLICY", "VALIDATION_ERROR",
   "BROWSER_ERROR", "FILE_SYSTEM_ERROR", "INTERNAL_SERVER_ERROR",
   "UNKNOWN_ERROR"]

/-- Every message substring tested by a rule of `categorizeError`, in
table order. -/
def allErrorPatterns : List String :=
  ["fetch", "network", "ECONNREFUSED", "rate limit", "429", "quota",
   "auth", "401", "API_KEY", "timeout", "ETIMEDOUT", "503", "502", "504",
   "content policy", "safety", "blocked", "validation", "invalid", "400",
   "playwright", "browser", "page", "ENOENT", "EACCES", "file",
   "500", "internal"]

/-! ## Retry controller (`executeWithRetry`, error-handler.ts) -/

/-- The `RetryConfig` value object.  `maxRetries` is a non-negative
integer; delays are modelled as exact rationals (milliseconds). -/
structure RetryConfig where
  maxRetries : ℕ
  baseDelay : ℚ
  maxDelay : ℚ
  exponentialBackoff : Bool
  retryableErrors : List String

/-- `RobustErrorHandler.calculateDelay`: with backoff on, the delay is
`min(exponentialDelay + jitter, maxDelay)` where
`exponentialDelay = baseDelay * 2^attempt` and
`jitter = Math.random() * 0.1 * exponentialDelay`; `rand` is the value
drawn from `Math.random()` for this attempt. -/
def calculateDelay (cfg : RetryConfig) (attempt : ℕ) (rand : ℚ) : ℚ :=
  if cfg.exponentialBackoff then
    min (cfg.baseDelay * 2 ^ attempt + rand * (1 / 10) * (cfg.baseDelay * 2 ^ attempt))
      cfg.maxDelay
  else cfg.baseDelay

/-- One run of the `executeWithRetry` loop, instrumented with the number
of attempts made and the list of backoff delays slept.  `op` is the
operation's outcome per attempt index (`.error msg` models a rejected
promise with that message); `stk` and `ts` supply the stack trace and
clock reading observed at each failed attempt, `rand` the `Math.random`
draw used for the jitter of each backoff.

The loop runs `attempt = 0 .. maxRetries`; `remaining` is
`maxRetries - attempt`, so `remaining = 0` is the JS guard
`attempt === config.maxRetries`.  On a failure whose classification is
not retryable, or with no budget left, the loop throws the classified
error immediately. -/
def runRetryAux {α : Type} (op : ℕ → Except String α) (stk ts : ℕ → String)
    (rand : ℕ → ℚ) (ctx : List (String × String)) (cfg : RetryConfig) :
    ℕ → ℕ → Except ErrorInfo α × ℕ × List ℚ
  | attempt, remaining =>
    match op attempt with
    | .ok v => (.ok v, 1, [])
    | .error msg =>
      let info := categorizeError msg (stk attempt) ctx (ts attempt)
      match remaining with
      | 0 => (.error info, 1, [])
      | r + 1 =>
        if info.retryable then
          let d := calculateDelay cfg attempt (rand attempt)
          let rest := runRetryAux op stk ts rand ctx cfg (attempt + 1) r
          (rest.1, rest.2.1 + 1, d :: rest.2.2)
        else (.error info, 1, [])

/-- `RobustErrorHandler.executeWithRetry`, instrumented: result, total
number of attempts, backoff delays in order. -/
def executeWithRetry {α : Type} (op : ℕ → Except String α) (stk ts : ℕ → String)
    (rand : ℕ → ℚ) (ctx : List (String × String)) (cfg : RetryConfig) :
    Except ErrorInfo α × ℕ × List ℚ :=
  runRetryAux op stk ts rand ctx cfg 0 cfg.maxRetries

/-! ## Coarse chunk planner (`splitScript`, robust-scraper.ts) -/

/-- Global matching of the sentence regex `[^\.!?]+[\.!?]+`: skip
characters that cannot start a match (a leading run of terminators),
take a maximal nonempty run of non-terminators, then a maximal nonempty
run of terminators; a trailing run of non-terminators with no following
terminator is not a match.  `fuel`-structured recursion; every call-site
supplies `s.length ≤ fuel`, under which the fuel never runs out. -/
def matchSentencesAux (fuel : ℕ) (s : List Char) : List (List Char) :=
  match fuel with
  | 0 => []
  | fuel + 1 =>
    let s1 := s.dropWhile isTerminator
    let t := s1.takeWhile (fun c => !(isTerminator c))
    let rest := s1.dropWhile (fun c => !(isTerminator c))
    if rest.isEmpty then []
    else
      let p := rest.takeWhile isTerminator
      (t ++ p) :: matchSentencesAux fuel (rest.dropWhile isTerminator)

/-- `script.match(/[^\.!?]+[\.!?]+/g)` — the list of sentence matches
(empty list models a `null` result). -/
def matchSentences (s : List Char) : List (List Char) :=
  matchSentencesAux s.length s

/-- The sentence list `splitScript` iterates over:
`script.match(...) || [script]`. -/
def sentencesOf (script : List Char) : List (List Char) :=
  if (matchSentences script).isEmpty then [script] else matchSentences script

/-- The accumulation loop of `splitScript`: for each sentence, if
`(currentChunk + sentence).length > maxChunkLength && currentChunk`
(nonempty), push `currentChunk.trim()` and restart from the sentence;
otherwise append `' ' + sentence`. -/
def splitLoop (maxLen : ℕ) :
    List (List Char) → List (List Char) → List Char → List (List Char) × List Char
  | [], chunks, c => (chunks, c)
  | s :: rest, chunks, c =>
    if maxLen < c.length + s.length ∧ c ≠ [] then
      splitLoop maxLen rest (chunks ++ [trimChars c]) s
    else
      splitLoop maxLen rest chunks (c ++ ' ' :: s)

/-- `EnhancedTTSEngine.splitScript(script, maxChunkLength)`. -/
def splitScript (script : List Char) (maxLen : ℕ) : List (List Char) :=
  let r := splitLoop maxLen (sentencesOf script) [] []
  let chunks := if (trimChars r.2).isEmpty then r.1 else r.1 ++ [trimChars r.2]
  if chunks.isEmpty then [script] else chunks

/-! ## Fine chunk planner (`splitEnhancedScript`, realistic-voice-methods.ts) -/

/-- JavaScript `script.split(/[.!?]+/)`: pieces between maximal runs of
terminators (leading/trailing runs produce empty pieces).  Same fuel
discipline as `matchSentencesAux`, with `s.length < fuel` at every
call-site. -/
def splitTermAux (fuel : ℕ) (s : List Char) : List (List Char) :=
  match fuel with
  | 0 => []
  | fuel + 1 =>
    let piece := s.takeWhile (fun c => !(isTerminator c))
    let rest := s.dropWhile (fun c => !(isTerminator c))
    if rest.isEmpty then [piece]
    else piece :: splitTermAux fuel (rest.dropWhile isTerminator)

/-- `script.split(/[.!?]+/)`. -/
def splitTerm (s : List Char) : List (List Char) :=
  splitTermAux (s.length + 1) s

/-- The accumulation loop of `splitEnhancedScript`: sentences whose trim
is empty are skipped; if `currentChunk.length + sentence.length > 500`,
the current chunk (when nonempty) is pushed trimmed and the sentence
starts the next chunk; otherwise the sentence is appended, joined with
`'. '` when the chunk is already nonempty. -/
def enhLoop :
    List (List Char) → List (List Char) → List Char → List (List Char) × List Char
  | [], chunks, c => (chunks, c)
  | s :: rest, chunks, c =>
    if (trimChars s).isEmpty then enhLoop rest chunks c
    else if 500 < c.length + s.length then
      enhLoop rest (if c.isEmpty then chunks else chunks ++ [trimChars c]) s
    else
      enhLoop rest chunks (c ++ (if c.isEmpty then [] else ['.', ' ']) ++ s)

/-- `RealisticVoiceMethods.splitEnhancedScript(script)` (fine ~500-unit
chunking for synthesis). -/
def splitEnhancedScript (script : List Char) : List (List Char) :=
  let r := enhLoop (splitTerm script) [] []
  if r.2.isEmpty then r.1 else r.1 ++ [trimChars r.2]

/-! ## Silence generation and reassembly
(`generateNaturalPause`, `generateWithElevenLabs`) -/

/-- `RealisticVoiceMethods.generateNaturalPause(previousChunk)`: a
zero-filled 16-bit buffer of `floor(44100 * (d/1000)) * 2` bytes where
`d = previousChunk.includes('!') ? 1500 : 800` milliseconds. -/
def generateNaturalPause (prev : List Char) : List ℕ :=
  let pauseDuration : ℕ := if prev.contains '!' then 1500 else 800
  let silenceSamples : ℕ := 44100 * pauseDuration / 1000
  List.replicate (silenceSamples * 2) 0

/-- The chunk loop of `generateWithElevenLabs`: synthesize chunk `i`
(the provider call is the oracle `synth`), append its buffer, and if the
chunk is not the last, append `generateNaturalPause(chunk)`.  A failed
chunk aborts the whole request (the JS code rethrows). -/
def elevenChunkLoop (synth : ℕ → List Char → Except String (List ℕ)) :
    ℕ → List (List Char) → Except String (List (List ℕ))
  | _, [] => .ok []
  | i, c :: rest =>
    match synth i c with
    | .error e => .error e
    | .ok b =>
      match rest with
      | [] => .ok [b]
      | _ :: _ =>
        match elevenChunkLoop synth (i + 1) rest with
        | .error e => .error e
        | .ok bs => .ok (b :: generateNaturalPause c :: bs)

/-- `RealisticVoiceMethods.enhanceAudioForRealism`: run ffmpeg over the
buffer; if ffmpeg is unavailable or the run fails, return the original
buffer unchanged.  The oracle `ffmpegRun` is `some out` for a successful
run producing `out`, `none` for a missing binary or failed run. -/
def enhanceAudioForRealism (ffmpegRun : Option (List ℕ)) (buf : List ℕ) : List ℕ :=
  match ffmpegRun with
  | none => buf
  | some out => out

/-- The outcome record of one provider-specific generation
(`TTSResult` restricted to the fields the claims mention). -/
structure SynthOutcome where
  success : Bool
  audio : List ℕ
  enhancedAudio : Bool
  provider : String
  deriving DecidableEq, Repr

/-- `EnhancedTTSEngine.generateWithElevenLabs` on already-planned
chunks: run the chunk loop, concatenate all buffers
(`Buffer.concat(audioBuffers)`), optionally run the enhancement pass,
and return a success record whose `enhancedAudio` field is
`config.enhanceAudio`. -/
def generateWithElevenLabs (synth : ℕ → List Char → Except String (List ℕ))
    (ffmpegRun : Option (List ℕ)) (enhance : Bool) (chunks : List (List Char)) :
    Except String SynthOutcome :=
  match elevenChunkLoop synth 0 chunks with
  | .error e => .error e
  | .ok bufs =>
    let combined := bufs.flatten
    let final := if enhance then enhanceAudioForRealism ffmpegRun combined else combined
    .ok { success := true, audio := final, enhancedAudio := enhance,
          provider := "elevenlabs" }

/-- The reassembly shape the specification describes: the per-chunk
buffers in index order, with exactly one silence segment between each
consecutive pair and none after the final chunk.  Stated over the list
of (chunk, its synthesized buffer) pairs. -/
def specSegments : List (List Char × List ℕ) → List (List ℕ)
  | [] => []
  | [(_, b)] => [b]
  | (c, b) :: rest => b :: generateNaturalPause c :: specSegments rest

/-! ## Provider fallback order and the aggregate failure path
(`getProviderFallbackOrder`, `generateAudio`) -/

/-- The fixed default provider ordering (`availableProviders` in the
source): Azure first, then ElevenLabs. -/
def defaultTTSProviders : List String := ["azure", "elevenlabs"]

/-- `EnhancedTTSEngine.getProviderFallbackOrder(preferredProvider)`. -/
def getProviderFallbackOrder (preferred : String) : List String :=
  if preferred = "auto" then defaultTTSProviders
  else if preferred ∈ defaultTTSProviders then
    preferred :: defaultTTSProviders.filter (fun p => p ≠ preferred)
  else defaultTTSProviders

/-- The externally visible result of `generateAudio`, restricted to the
fields the claims mention.  The failure record of the source carries
only `success:false`, `provider:'none'`, the voice, and an `error`
message string — there is no classification field, no attempted-provider
list and no suggestion field. -/
structure TTSFinal where
  success : Bool
  provider : String
  voice : String
  error : Option String
  fallbackUsed : Option Bool
  originalProvider : Option String
  deriving DecidableEq, Repr

/-- JavaScript `lastError?.message || 'All TTS providers failed'`
(the `||` also replaces an empty message). -/
def lastErrorOrDefault : Option String → String
  | none => "All TTS providers failed"
  | some m => if m = "" then "All TTS providers failed" else m

/-- The provider loop of `generateAudio`: skip unavailable providers
(`avail`), attempt the rest in order (`attemptP`, `.error m` models a
throw with message `m`); a success returns immediately with
fallback metadata; when the list is exhausted, return the aggregate
failure record. -/
def generateAudioLoop (avail : String → Bool)
    (attemptP : String → Except String Unit) (cfgProvider voice : String) :
    List String → Option String → TTSFinal
  | [], lastError =>
    { success := false, provider := "none", voice := voice,
      error := some (lastErrorOrDefault lastError),
      fallbackUsed := none, originalProvider := none }
  | p :: rest, lastError =>
    if avail p then
      match attemptP p with
      | .ok _ =>
        let orig := if cfgProvider = "auto" then "elevenlabs" else cfgProvider
        { success := true, provider := p, voice := voice, error := none,
          fallbackUsed := some (decide (p ≠ orig)),
          originalProvider := some orig }
      | .error m => generateAudioLoop avail attemptP cfgProvider voice rest (some m)
    else generateAudioLoop avail attemptP cfgProvider voice rest lastError

/-- `EnhancedTTSEngine.generateAudio`, abstracted over the availability
predicate and per-provider outcome. -/
def generateAudio (avail : String → Bool)
    (attemptP : String → Except String Unit) (provider voice : String) : TTSFinal :=
  generateAudioLoop avail attemptP provider voice
    (getProviderFallbackOrder provider) none

/-! ## TTS route parameter clamping (app/api/tts POST handler) -/

/-- `Math.max(lo, Math.min(hi, x))`. -/
def clampJS (lo hi x : ℚ) : ℚ := max lo (min hi x)

/-- The clamped voice parameters of the route's `ttsOptions` object. -/
structure TtsClamped where
  speed : ℚ
  voiceStability : ℚ
  voiceSimilarity : ℚ
  deriving DecidableEq, Repr

/-- The clamping the TTS route applies to caller-supplied parameters
before calling `generateAudio`:
`speed: Math.max(0.8, Math.min(1.2, speed))`,
`voiceStability: Math.max(0.5, Math.min(0.9, voiceStability))`,
`voiceSimilarity: Math.max(0.7, Math.min(0.95, voiceSimilarity))`. -/
def ttsOptionsOf (speed voiceStability voiceSimilarity : ℚ) : TtsClamped :=
  { speed := clampJS (8 / 10) (12 / 10) speed
    voiceStability := clampJS (5 / 10) (9 / 10) voiceStability
    voiceSimilarity := clampJS (7 / 10) (95 / 100) voiceSimilarity }

/-! ## Helper lemmas on the string primitives -/

theorem dropWhile_length_le (p : Char → Bool) (l : List Char) :
    (l.dropWhile p).length ≤ l.length :=
  (List.dropWhile_sublist p).length_le

theorem head_dropWhile_false (p : Char → Bool) :
    ∀ (l : List Char) (x : Char) (xs : List Char),
      l.dropWhile p = x :: xs → p x = false := by
  intro l
  induction l with
  | nil => intro x xs h; simp at h
  | cons a l ih =>
    intro x xs h
    rw [List.dropWhile_cons] at h
    by_cases hp : p a = true
    · exact ih x xs (by simpa [hp] using h)
    · simp [hp] at h
      simp [h.1] at hp
      simp [hp]

theorem trimChars_subset (s : List Char) : trimChars s ⊆ s := by
  intro c hc
  unfold trimChars at hc
  rw [List.mem_reverse] at hc
  have h1 := (List.dropWhile_sublist isWs).subset hc
  rw [List.mem_reverse] at h1
  exact (List.dropWhile_sublist isWs).subset h1

theorem trimChars_length_le (s : List Char) : (trimChars s).length ≤ s.length := by
  unfold trimChars
  calc (((s.dropWhile isWs).reverse.dropWhile isWs).reverse).length
      = ((s.dropWhile isWs).reverse.dropWhile isWs).length := by
        rw [List.length_reverse]
    _ ≤ (s.dropWhile isWs).reverse.length := dropWhile_length_le _ _
    _ = (s.dropWhile isWs).length := by rw [List.length_reverse]
    _ ≤ s.length := dropWhile_length_le _ _

theorem filter_dropWhile_of_imp {p q : Char → Bool}
    (h : ∀ c, p c = true → q c = false) :
    ∀ l : List Char, (l.dropWhile p).filter q = l.filter q := by
  intro l
  induction l with
  | nil => rfl
  | cons a l ih =>
    rw [List.dropWhile_cons, List.filter_cons]
    by_cases hp : p a = true
    · simp [hp, h a hp, ih]
    · simp [hp, List.filter_cons]

theorem filter_trimChars_of_imp {q : Char → Bool}
    (h : ∀ c, isWs c = true → q c = false) (s : List Char) :
    (trimChars s).filter q = s.filter q := by
  unfold trimChars
  rw [List.filter_reverse, filter_dropWhile_of_imp h, List.filter_reverse,
    List.reverse_reverse, filter_dropWhile_of_imp h]

theorem stripWs_trimChars (s : List Char) : stripWs (trimChars s) = stripWs s :=
  filter_trimChars_of_imp (fun c hc => by simp [hc]) s

theorem stripPW_trimChars (s : List Char) : stripPW (trimChars s) = stripPW s :=
  filter_trimChars_of_imp (fun c hc => by simp [hc]) s

theorem stripWs_of_trimChars_nil {s : List Char} (h : trimChars s = []) :
    stripWs s = [] := by
  rw [← stripWs_trimChars, h]; rfl

theorem stripPW_of_trimChars_nil {s : List Char} (h : trimChars s = []) :
    stripPW s = [] := by
  rw [← stripPW_trimChars, h]; rfl

theorem trimChars_cons_ws {c : Char} (h : isWs c = true) (s : List Char) :
    trimChars (c :: s) = trimChars s := by
  unfold trimChars
  rw [List.dropWhile_cons, if_pos h]

theorem stripWs_append (a b : List Char) :
    stripWs (a ++ b) = stripWs a ++ stripWs b :=
  List.filter_append a b

theorem stripPW_append (a b : List Char) :
    stripPW (a ++ b) = stripPW a ++ stripPW b :=
  List.filter_append a b

theorem isWs_eq_false_of_isTerminator {c : Char} (h : isTerminator c = true) :
    isWs c = false := by
  unfold isTerminator at h
  rcases Bool.or_eq_true_iff.mp h with h1 | h1
  · rcases Bool.or_eq_true_iff.mp h1 with h2 | h2 <;>
      (first
        | (have : c = '.' := by exact eq_of_beq h2
           subst this; decide)
        | (have : c = '!' := by exact eq_of_beq h2
           subst this; decide))
  · have : c = '?' := by exact eq_of_beq h1
    subst this; decide

/-! ## Lemmas about the sentence matcher -/

theorem matchSentencesAux_decomp (fuel : ℕ) :
    ∀ s : List Char, s.length ≤ fuel →
      ∃ pre suf : List Char,
        (∀ c ∈ pre, isTerminator c = true) ∧
        (∀ c ∈ suf, isTerminator c = false) ∧
        s = pre ++ (matchSentencesAux fuel s).flatten ++ suf := by
  induction fuel with
  | zero =>
    intro s hs
    have : s = [] := List.length_eq_zero.mp (Nat.le_zero.mp hs)
    subst this
    exact ⟨[], [], by simp, by simp, by simp [matchSentencesAux]⟩
  | succ fuel ih =>
    intro s hs
    rw [matchSentencesAux]
    set s1 := s.dropWhile isTerminator with hs1
    set t := s1.takeWhile (fun c => !(isTerminator c)) with ht
    set rest := s1.dropWhile (fun c => !(isTerminator c)) with hrest
    by_cases hre : rest.isEmpty
    · refine ⟨s.takeWhile isTerminator, t, ?_, ?_, ?_⟩
      · intro c hc; exact List.mem_takeWhile_imp hc
      · intro c hc
        have := List.mem_takeWhile_imp hc
        simpa using this
      · simp only [hre, if_true, List.flatten_nil, List.append_nil]
        have h1 : s.takeWhile isTerminator ++ s1 = s :=
          List.takeWhile_append_dropWhile isTerminator s
        have h2 : t ++ rest = s1 := List.takeWhile_append_dropWhile _ s1
        have h3 : rest = [] := List.isEmpty_iff.mp hre
        rw [h3, List.append_nil] at h2
        rw [h2, h1]
    · -- at least one terminator follows the run `t`
      rw [if_neg (by simpa using hre)]
      obtain ⟨x, xs, hx⟩ : ∃ x xs, rest = x :: xs := by
        cases hr : rest with
        | nil => rw [hr] at hre; simp at hre
        | cons x xs => exact ⟨x, xs, rfl⟩
      have hxt : isTerminator x = true := by
        have h := head_dropWhile_false (fun c => !(isTerminator c))
          s1 x xs (by rw [← hrest, hx])
        simpa using h
      have hsplit : rest.takeWhile isTerminator ++ rest.dropWhile isTerminator = rest :=
        List.takeWhile_append_dropWhile isTerminator rest
      have hplen : 1 ≤ (rest.takeWhile isTerminator).length := by
        rw [hx, List.takeWhile_cons, if_pos hxt]
        simp
      have hlen2 : (rest.dropWhile isTerminator).length < rest.length := by
        have := congrArg List.length hsplit
        rw [List.length_append] at this
        omega
      have hr_le : rest.length ≤ s1.length := dropWhile_length_le _ _
      have hs1_le : s1.length ≤ s.length := dropWhile_length_le _ _
      have hfuel : (rest.dropWhile isTerminator).length ≤ fuel := by omega
      obtain ⟨pre2, suf, hpre2, hsuf, heq⟩ := ih (rest.dropWhile isTerminator) hfuel
      have hpre2nil : pre2 = [] := by
        cases hdr : rest.dropWhile isTerminator with
        | nil =>
          rw [hdr] at heq
          exact (List.append_eq_nil.mp
            (List.append_eq_nil.mp heq.symm).1).1
        | cons y ys =>
          have hyt : isTerminator y = false :=
            head_dropWhile_false isTerminator rest y ys (by rw [hdr])
          cases hp2 : pre2 with
          | nil => rfl
          | cons z zs =>
            rw [hdr, hp2] at heq
            have hz : z = y := by
              have := heq
              simp only [List.cons_append] at this
              exact (List.cons.injEq _ _ _ _ ▸ this).1.symm
            have := hpre2 z (by rw [hp2]; exact List.mem_cons_self z zs)
            rw [hz] at this
            rw [this] at hyt
            exact absurd hyt (by simp)
      rw [hpre2nil, List.nil_append] at heq
      refine ⟨s.takeWhile isTerminator, suf, ?_, hsuf, ?_⟩
      · intro c hc; exact List.mem_takeWhile_imp hc
      · have h1 : s.takeWhile isTerminator ++ s1 = s :=
          List.takeWhile_append_dropWhile isTerminator s
        have h2 : t ++ rest = s1 := List.takeWhile_append_dropWhile _ s1
        calc s = s.takeWhile isTerminator ++ s1 := h1.symm
          _ = s.takeWhile isTerminator ++ (t ++ rest) := by rw [h2]
          _ = s.takeWhile isTerminator ++ (t ++ (rest.takeWhile isTerminator
                ++ rest.dropWhile isTerminator)) := by rw [hsplit]
          _ = s.takeWhile isTerminator ++ (t ++ (rest.takeWhile isTerminator
                ++ ((matchSentencesAux fuel (rest.dropWhile isTerminator)).flatten
                    ++ suf))) := by rw [← heq]
          _ = s.takeWhile isTerminator
                ++ ((t ++ rest.takeWhile isTerminator)
                    :: matchSentencesAux fuel (rest.dropWhile isTerminator)).flatten
                ++ suf := by
            simp [List.flatten_cons, List.append_assoc]

/-- Every regex match `t ++ p` contains at least one terminator . -/
theorem matchSentencesAux_mem_terminator (fuel : ℕ) :
    ∀ s : List Char, ∀ m ∈ matchSentencesAux fuel s,
      ∃ c ∈ m, isTerminator c = true := by
  induction fuel with
  | zero => intro s m hm; simp [matchSentencesAux] at hm
  | succ fuel ih =>
    intro s m hm
    rw [matchSentencesAux] at hm
    set s1 := s.dropWhile isTerminator with hs1
    set rest := s1.dropWhile (fun c => !(isTerminator c)) with hrest
    by_cases hre : rest.isEmpty
    · simp only [hre, if_true] at hm
      simp at hm
    · rw [if_neg (by simpa using hre)] at hm
      rcases List.mem_cons.mp hm with hm | hm
      · obtain ⟨x, xs, hx⟩ : ∃ x xs, rest = x :: xs := by
          cases hr : rest with
          | nil => rw [hr] at hre; simp at hre
          | cons x xs => exact ⟨x, xs, rfl⟩
        have hxt : isTerminator x = true := by
          have h := head_dropWhile_false (fun c => !(isTerminator c))
            s1 x xs (by rw [← hrest, hx])
          simpa using h
        refine ⟨x, ?_, hxt⟩
        rw [hm]
        apply List.mem_append_right
        rw [hx, List.takeWhile_cons, if_pos hxt]
        exact List.mem_cons_self x _
      · exact ih _ m hm

/-! ## Lemmas about `splitTerm` -/

theorem splitTermAux_flatten (fuel : ℕ) :
    ∀ s : List Char, s.length < fuel →
      stripPW ((splitTermAux fuel s).flatten) = stripPW s := by
  induction fuel with
  | zero => intro s hs; omega
  | succ fuel ih =>
    intro s hs
    rw [splitTermAux]
    set piece := s.takeWhile (fun c => !(isTerminator c)) with hpiece
    set rest := s.dropWhile (fun c => !(isTerminator c)) with hrest
    have hsplit : piece ++ rest = s := List.takeWhile_append_dropWhile _ s
    by_cases hre : rest.isEmpty
    · have h3 : rest = [] := List.isEmpty_iff.mp hre
      rw [h3, List.append_nil] at hsplit
      simp only [hre, if_true, List.flatten_cons, List.flatten_nil,
        List.append_nil, hsplit]
    · rw [if_neg (by simpa using hre)]
      obtain ⟨x, xs, hx⟩ : ∃ x xs, rest = x :: xs := by
        cases hr : rest with
        | nil => rw [hr] at hre; simp at hre
        | cons x xs => exact ⟨x, xs, rfl⟩
      have hxt : isTerminator x = true := by
        have h := head_dropWhile_false (fun c => !(isTerminator c))
          s x xs (by rw [← hrest, hx])
        simpa using h
      have hterm : rest.takeWhile isTerminator ++ rest.dropWhile isTerminator = rest :=
        List.takeWhile_append_dropWhile isTerminator rest
      have hplen : 1 ≤ (rest.takeWhile isTerminator).length := by
        rw [hx, List.takeWhile_cons, if_pos hxt]; simp
      have hlen2 : (rest.dropWhile isTerminator).length < rest.length := by
        have := congrArg List.length hterm
        rw [List.length_append] at this
        omega
      have hr_le : rest.length ≤ s.length := dropWhile_length_le _ _
      have hstripterm : stripPW (rest.takeWhile isTerminator) = [] := by
        unfold stripPW
        rw [List.filter_eq_nil_iff]
        intro c hc
        have := List.mem_takeWhile_imp hc
        simp [this, isWs_eq_false_of_isTerminator this]
      calc stripPW ((piece :: splitTermAux fuel (rest.dropWhile isTerminator)).flatten)
          = stripPW piece ++ stripPW ((splitTermAux fuel (rest.dropWhile isTerminator)).flatten) := by
            rw [List.flatten_cons, stripPW_append]
        _ = stripPW piece ++ stripPW (rest.dropWhile isTerminator) := by
            rw [ih _ (by omega)]
        _ = stripPW piece ++ (stripPW (rest.takeWhile isTerminator)
              ++ stripPW (rest.dropWhile isTerminator)) := by rw [hstripterm]; rfl
        _ = stripPW (piece ++ rest) := by rw [← stripPW_append, hterm, ← stripPW_append]
        _ = stripPW s := by rw [hsplit]

theorem splitTermAux_pieces (fuel : ℕ) :
    ∀ s : List Char, ∀ piece ∈ splitTermAux fuel s, ∀ c ∈ piece,
      isTerminator c = false := by
  induction fuel with
  | zero => intro s piece hp; simp [splitTermAux] at hp
  | succ fuel ih =>
    intro s piece hp c hc
    rw [splitTermAux] at hp
    by_cases hre : (s.dropWhile (fun c => !(isTerminator c))).isEmpty
    · simp only [hre, if_true, List.mem_singleton] at hp
      subst hp
      have := List.mem_takeWhile_imp hc
      simpa using this
    · rw [if_neg (by simpa using hre)] at hp
      rcases List.mem_cons.mp hp with hp | hp
      · subst hp
        have := List.mem_takeWhile_imp hc
        simpa using this
      · exact ih _ piece hp c hc

theorem splitTerm_flatten (s : List Char) :
    stripPW ((splitTerm s).flatten) = stripPW s :=
  splitTermAux_flatten (s.length + 1) s (by omega)

theorem splitTerm_pieces (s : List Char) :
    ∀ piece ∈ splitTerm s, ∀ c ∈ piece, isTerminator c = false :=
  splitTermAux_pieces (s.length + 1) s

/-! ## Invariants of the `splitScript` accumulation loop -/

theorem splitLoop_concat (maxLen : ℕ) :
    ∀ (sents chunks : List (List Char)) (c : List Char),
      stripWs ((splitLoop maxLen sents chunks c).1.flatten
          ++ (splitLoop maxLen sents chunks c).2)
        = stripWs (chunks.flatten ++ c ++ sents.flatten) := by
  intro sents
  induction sents with
  | nil => intro chunks c; simp [splitLoop]
  | cons s rest ih =>
    intro chunks c
    rw [splitLoop]
    by_cases h : maxLen < c.length + s.length ∧ c ≠ []
    · rw [if_pos h, ih]
      simp only [List.flatten_append, List.flatten_cons, List.flatten_nil,
        List.append_nil, stripWs_append, stripWs_trimChars]
      simp [List.append_assoc]
    · rw [if_neg h, ih]
      have hsp : stripWs (' ' :: s) = stripWs s := by
        unfold stripWs
        rw [List.filter_cons]
        norm_num [isWs]
      simp only [List.flatten_cons, stripWs_append, hsp]
      simp [List.append_assoc]

theorem splitLoop_bound (maxLen : ℕ) (allSents : List (List Char)) :
    ∀ (sents chunks : List (List Char)) (c : List Char),
      (∀ s ∈ sents, s ∈ allSents) →
      (∀ x ∈ chunks, x.length ≤ maxLen + 1 ∨
        ∃ s ∈ allSents, x = trimChars s ∨ x = s) →
      (c = [] ∨ c.length ≤ maxLen + 1 ∨
        ∃ s ∈ allSents, c = ' ' :: s ∨ c = s) →
      (∀ x ∈ (splitLoop maxLen sents chunks c).1, x.length ≤ maxLen + 1 ∨
        ∃ s ∈ allSents, x = trimChars s ∨ x = s) ∧
      ((splitLoop maxLen sents chunks c).2 = [] ∨
        (splitLoop maxLen sents chunks c).2.length ≤ maxLen + 1 ∨
        ∃ s ∈ allSents, (splitLoop maxLen sents chunks c).2 = ' ' :: s ∨
          (splitLoop maxLen sents chunks c).2 = s) := by
  intro sents
  induction sents with
  | nil => intro chunks c _ hch hc; exact ⟨hch, hc⟩
  | cons s rest ih =>
    intro chunks c hmem hch hc
    rw [splitLoop]
    have hs : s ∈ allSents := hmem s (List.mem_cons_self s rest)
    have hmem' : ∀ x ∈ rest, x ∈ allSents := fun x hx =>
      hmem x (List.mem_cons_of_mem s hx)
    by_cases h : maxLen < c.length + s.length ∧ c ≠ []
    · rw [if_pos h]
      apply ih _ _ hmem'
      · intro x hx
        rcases List.mem_append.mp hx with hx | hx
        · exact hch x hx
        · rw [List.mem_singleton.mp hx]
          rcases hc with hc | hc | ⟨s', hs', hc' | hc'⟩
          · exact absurd hc h.2
          · exact Or.inl (le_trans (trimChars_length_le c) hc)
          · refine Or.inr ⟨s', hs', Or.inl ?_⟩
            rw [hc', trimChars_cons_ws (by decide)]
          · exact Or.inr ⟨s', hs', Or.inl (by rw [hc'])⟩
      · exact Or.inr (Or.inr ⟨s, hs, Or.inr rfl⟩)
    · rw [if_neg h]
      apply ih _ _ hmem' hch
      rcases hc with hc | hc | hc
      · subst hc
        exact Or.inr (Or.inr ⟨s, hs, Or.inl rfl⟩)
      · -- the guard failed, so either the append fits within maxLen
        by_cases hclen : c = []
        · subst hclen
          exact Or.inr (Or.inr ⟨s, hs, Or.inl rfl⟩)
        · have hle : c.length + s.length ≤ maxLen := by
            by_contra hgt
            exact h ⟨by omega, hclen⟩
          refine Or.inr (Or.inl ?_)
          simp only [List.length_append, List.length_cons]
          omega
      · by_cases hclen : c = []
        · subst hclen
          exact Or.inr (Or.inr ⟨s, hs, Or.inl rfl⟩)
        · have hle : c.length + s.length ≤ maxLen := by
            by_contra hgt
            exact h ⟨by omega, hclen⟩
          refine Or.inr (Or.inl ?_)
          simp only [List.length_append, List.length_cons]
          omega

/-! ## Invariants of the `splitEnhancedScript` accumulation loop -/

theorem enhLoop_concat :
    ∀ (sents chunks : List (List Char)) (c : List Char),
      stripPW ((enhLoop sents chunks c).1.flatten ++ (enhLoop sents chunks c).2)
        = stripPW (chunks.flatten ++ c ++ sents.flatten) := by
  intro sents
  induction sents with
  | nil => intro chunks c; simp [enhLoop]
  | cons s rest ih =>
    intro chunks c
    rw [enhLoop]
    by_cases h1 : (trimChars s).isEmpty
    · rw [if_pos h1, ih]
      have : stripPW s = [] :=
        stripPW_of_trimChars_nil (List.isEmpty_iff.mp h1)
      simp only [List.flatten_cons, stripPW_append, this]
      simp [List.append_assoc]
    · rw [if_neg h1]
      by_cases h2 : 500 < c.length + s.length
      · rw [if_pos h2, ih]
        by_cases h3 : c.isEmpty
        · have : c = [] := List.isEmpty_iff.mp h3
          subst this
          simp only [h3, if_true, List.flatten_cons, stripPW_append]
          simp [List.append_assoc, stripPW]
        · rw [if_neg h3]
          simp only [List.flatten_append, List.flatten_cons, List.flatten_nil,
            List.append_nil, stripPW_append, stripPW_trimChars]
          simp [List.append_assoc]
      · rw [if_neg h2, ih]
        have hjoin : ∀ j : List Char, j = [] ∨ j = ['.', ' '] → stripPW j = [] := by
          intro j hj
          rcases hj with hj | hj <;> subst hj <;> rfl
        by_cases h3 : c.isEmpty
        · simp only [h3, if_true, List.flatten_cons, stripPW_append]
          simp [List.append_assoc, stripPW]
        · simp only [h3, if_false, List.flatten_cons, stripPW_append,
            hjoin ['.', ' '] (Or.inr rfl)]
          simp [List.append_assoc, stripPW]
          decide

theorem enhLoop_bound (allPieces : List (List Char)) :
    ∀ (sents chunks : List (List Char)) (c : List Char),
      (∀ s ∈ sents, s ∈ allPieces) →
      (∀ x ∈ chunks, x.length ≤ 502 ∨ ∃ p ∈ allPieces, x = trimChars p) →
      (c = [] ∨ c.length ≤ 502 ∨ ∃ p ∈ allPieces, c = p) →
      (∀ x ∈ (enhLoop sents chunks c).1, x.length ≤ 502 ∨
        ∃ p ∈ allPieces, x = trimChars p) ∧
      ((enhLoop sents chunks c).2 = [] ∨ (enhLoop sents chunks c).2.length ≤ 502 ∨
        ∃ p ∈ allPieces, (enhLoop sents chunks c).2 = p) := by
  intro sents
  induction sents with
  | nil => intro chunks c _ hch hc; exact ⟨hch, hc⟩
  | cons s rest ih =>
    intro chunks c hmem hch hc
    rw [enhLoop]
    have hs : s ∈ allPieces := hmem s (List.mem_cons_self s rest)
    have hmem' : ∀ x ∈ rest, x ∈ allPieces := fun x hx =>
      hmem x (List.mem_cons_of_mem s hx)
    by_cases h1 : (trimChars s).isEmpty
    · rw [if_pos h1]; exact ih chunks c hmem' hch hc
    · rw [if_neg h1]
      by_cases h2 : 500 < c.length + s.length
      · rw [if_pos h2]
        apply ih _ _ hmem'
        · by_cases h3 : c.isEmpty
          · simpa [h3] using hch
          · rw [if_neg h3]
            intro x hx
            rcases List.mem_append.mp hx with hx | hx
            · exact hch x hx
            · rw [List.mem_singleton.mp hx]
              rcases hc with hc | hc | ⟨p, hp, hc⟩
              · exact absurd (List.isEmpty_iff.mpr hc) h3
              · exact Or.inl (le_trans (trimChars_length_le c) hc)
              · exact Or.inr ⟨p, hp, by rw [hc]⟩
        · exact Or.inr (Or.inr ⟨s, hs, rfl⟩)
      · rw [if_neg h2]
        apply ih _ _ hmem' hch
        by_cases h3 : c.isEmpty
        · have : c = [] := List.isEmpty_iff.mp h3
          subst this
          simp only [List.isEmpty_nil, if_true, List.nil_append]
          exact Or.inr (Or.inr ⟨s, hs, rfl⟩)
        · rw [if_neg h3]
          refine Or.inr (Or.inl ?_)
          simp only [List.length_append, List.length_cons, List.length_nil]
          omega

/-! ## Assembled chunk-planner properties -/

theorem splitScript_eq (script : List Char) (maxLen : ℕ) :
    splitScript script maxLen =
      (if ((if (trimChars (splitLoop maxLen (sentencesOf script) [] []).2).isEmpty
            then (splitLoop maxLen (sentencesOf script) [] []).1
            else (splitLoop maxLen (sentencesOf script) [] []).1
              ++ [trimChars (splitLoop maxLen (sentencesOf script) [] []).2])).isEmpty
       then [script]
       else (if (trimChars (splitLoop maxLen (sentencesOf script) [] []).2).isEmpty
            then (splitLoop maxLen (sentencesOf script) [] []).1
            else (splitLoop maxLen (sentencesOf script) [] []).1
              ++ [trimChars (splitLoop maxLen (sentencesOf script) [] []).2])) := rfl

theorem splitEnhancedScript_eq (script : List Char) :
    splitEnhancedScript script =
      (if (enhLoop (splitTerm script) [] []).2.isEmpty
       then (enhLoop (splitTerm script) [] []).1
       else (enhLoop (splitTerm script) [] []).1
          ++ [trimChars (enhLoop (splitTerm script) [] []).2]) := rfl

theorem matchSentences_decomp (s : List Char) :
    ∃ pre suf : List Char,
      (∀ c ∈ pre, isTerminator c = true) ∧
      (∀ c ∈ suf, isTerminator c = false) ∧
      s = pre ++ (matchSentences s).flatten ++ suf :=
  matchSentencesAux_decomp s.length s le_rfl

theorem matchSentences_mem_term (s : List Char) :
    ∀ m ∈ matchSentences s, ∃ c ∈ m, isTerminator c = true :=
  matchSentencesAux_mem_terminator s.length s

theorem sentencesOf_decomp (script : List Char) :
    ∃ pre suf : List Char,
      (∀ c ∈ pre, isTerminator c = true) ∧
      (∀ c ∈ suf, isTerminator c = false) ∧
      script = pre ++ (sentencesOf script).flatten ++ suf := by
  unfold sentencesOf
  by_cases hm : (matchSentences script).isEmpty
  · rw [if_pos hm]
    exact ⟨[], [], by simp, by simp, by simp⟩
  · rw [if_neg hm]
    exact matchSentences_decomp script

theorem sentencesOf_eq_of_stripWs_nil {script : List Char}
    (h : stripWs ((sentencesOf script).flatten) = []) :
    sentencesOf script = [script] := by
  unfold sentencesOf at *
  by_cases hm : (matchSentences script).isEmpty
  · rw [if_pos hm]
  · exfalso
    rw [if_neg hm] at h
    cases hx : matchSentences script with
    | nil => rw [hx] at hm; simp at hm
    | cons m ms =>
      obtain ⟨c, hc, hct⟩ := matchSentences_mem_term script m
        (by rw [hx]; exact List.mem_cons_self m ms)
      have hcmem : c ∈ stripWs ((matchSentences script).flatten) :=
        List.mem_filter.mpr
          ⟨List.mem_flatten.mpr ⟨m, by rw [hx]; exact List.mem_cons_self m ms, hc⟩,
           by simp [isWs_eq_false_of_isTerminator hct]⟩
      rw [h] at hcmem
      exact absurd hcmem (List.not_mem_nil c)

theorem splitScript_concat (script : List Char) (maxLen : ℕ) :
    stripWs ((splitScript script maxLen).flatten)
      = stripWs ((sentencesOf script).flatten) := by
  rw [splitScript_eq]
  have hloop := splitLoop_concat maxLen (sentencesOf script) [] []
  simp only [List.flatten_nil, List.nil_append] at hloop
  set r := splitLoop maxLen (sentencesOf script) [] [] with hr
  by_cases htrim : (trimChars r.2).isEmpty
  · have h2 : stripWs r.2 = [] :=
      stripWs_of_trimChars_nil (List.isEmpty_iff.mp htrim)
    rw [if_pos htrim]
    by_cases hx : r.1.isEmpty
    · have hx' : r.1 = [] := List.isEmpty_iff.mp hx
      have hnil : stripWs ((sentencesOf script).flatten) = [] := by
        rw [← hloop, hx']
        simp only [List.flatten_nil, List.nil_append]
        exact h2
      rw [if_pos hx, sentencesOf_eq_of_stripWs_nil hnil]
    · rw [if_neg hx, ← hloop, stripWs_append, h2, List.append_nil]
  · rw [if_neg htrim, if_neg (by simp)]
    rw [← hloop, List.flatten_append, List.flatten_cons, List.flatten_nil,
      List.append_nil, stripWs_append, stripWs_append, stripWs_trimChars]

theorem splitScript_bound (script : List Char) (maxLen : ℕ) :
    ∀ chunk ∈ splitScript script maxLen,
      chunk.length ≤ maxLen + 1 ∨
        ∃ s ∈ sentencesOf script, chunk = trimChars s ∨ chunk = s := by
  rw [splitScript_eq]
  have hloopc := splitLoop_concat maxLen (sentencesOf script) [] []
  simp only [List.flatten_nil, List.nil_append] at hloopc
  have hloop := splitLoop_bound maxLen (sentencesOf script) (sentencesOf script)
    [] [] (fun s hs => hs) (by simp) (Or.inl rfl)
  set r := splitLoop maxLen (sentencesOf script) [] [] with hr
  by_cases htrim : (trimChars r.2).isEmpty
  · rw [if_pos htrim]
    by_cases hx : r.1.isEmpty
    · rw [if_pos hx]
      intro chunk hchunk
      rw [List.mem_singleton.mp hchunk]
      have hx' : r.1 = [] := List.isEmpty_iff.mp hx
      have h2 : stripWs r.2 = [] :=
        stripWs_of_trimChars_nil (List.isEmpty_iff.mp htrim)
      have hnil : stripWs ((sentencesOf script).flatten) = [] := by
        rw [← hloopc, hx']
        simp only [List.flatten_nil, List.nil_append]
        exact h2
      rw [sentencesOf_eq_of_stripWs_nil hnil]
      exact Or.inr ⟨script, List.mem_singleton_self script, Or.inr rfl⟩
    · rw [if_neg hx]
      exact hloop.1
  · rw [if_neg htrim, if_neg (by simp)]
    intro chunk hchunk
    rcases List.mem_append.mp hchunk with hc | hc
    · exact hloop.1 chunk hc
    · rw [List.mem_singleton.mp hc]
      rcases hloop.2 with h | h | ⟨s, hs, h | h⟩
      · rw [h] at htrim; simp [trimChars] at htrim
      · exact Or.inl (le_trans (trimChars_length_le r.2) h)
      · exact Or.inr ⟨s, hs, Or.inl (by rw [h, trimChars_cons_ws (by decide)])⟩
      · exact Or.inr ⟨s, hs, Or.inl (by rw [h])⟩

theorem splitEnhancedScript_concat (script : List Char) :
    stripPW ((splitEnhancedScript script).flatten) = stripPW script := by
  rw [splitEnhancedScript_eq]
  have hloop := enhLoop_concat (splitTerm script) [] []
  simp only [List.flatten_nil, List.nil_append] at hloop
  rw [splitTerm_flatten] at hloop
  set r := enhLoop (splitTerm script) [] [] with hr
  by_cases h : r.2.isEmpty
  · rw [if_pos h]
    have h2 : r.2 = [] := List.isEmpty_iff.mp h
    rw [← hloop, h2, List.append_nil]
  · rw [if_neg h]
    rw [← hloop, List.flatten_append, List.flatten_cons, List.flatten_nil,
      List.append_nil, stripPW_append, stripPW_append, stripPW_trimChars]

theorem splitEnhancedScript_bound (script : List Char) :
    ∀ chunk ∈ splitEnhancedScript script,
      chunk.length ≤ 502 ∨ ∃ p ∈ splitTerm script, chunk = trimChars p := by
  rw [splitEnhancedScript_eq]
  have hloop := enhLoop_bound (splitTerm script) (splitTerm script)
    [] [] (fun s hs => hs) (by simp) (Or.inl rfl)
  set r := enhLoop (splitTerm script) [] [] with hr
  by_cases h : r.2.isEmpty
  · rw [if_pos h]; exact hloop.1
  · rw [if_neg h]
    intro chunk hchunk
    rcases List.mem_append.mp hchunk with hc | hc
    · exact hloop.1 chunk hc
    · rw [List.mem_singleton.mp hc]
      rcases hloop.2 with h2 | h2 | ⟨p, hp, h2⟩
      · rw [h2] at h; simp at h
      · exact Or.inl (le_trans (trimChars_length_le r.2) h2)
      · exact Or.inr ⟨p, hp, by rw [h2]⟩

/-! ## Retry controller lemmas -/

theorem runRetryAux_always_fail {α : Type} (op : ℕ → Except String α)
    (stk ts : ℕ → String) (rand : ℕ → ℚ) (ctx : List (String × String))
    (cfg : RetryConfig)
    (hfail : ∀ n, ∃ m, op n = Except.error m ∧
      (categorizeError m (stk n) ctx (ts n)).retryable = true) :
    ∀ (remaining attempt : ℕ),
      (∃ info, (runRetryAux op stk ts rand ctx cfg attempt remaining).1
        = Except.error info) ∧
      (runRetryAux op stk ts rand ctx cfg attempt remaining).2.1
        = remaining + 1 := by
  intro remaining
  induction remaining with
  | zero =>
    intro attempt
    obtain ⟨m, hm, _⟩ := hfail attempt
    rw [runRetryAux, hm]
    exact ⟨⟨_, rfl⟩, rfl⟩
  | succ r ih =>
    intro attempt
    obtain ⟨m, hm, hret⟩ := hfail attempt
    rw [runRetryAux, hm]
    simp only [hret, if_true]
    obtain ⟨⟨info, hinfo⟩, hcount⟩ := ih (attempt + 1)
    exact ⟨⟨info, hinfo⟩, by rw [hcount]⟩

theorem runRetryAux_first_not_retryable {α : Type} (op : ℕ → Except String α)
    (stk ts : ℕ → String) (rand : ℕ → ℚ) (ctx : List (String × String))
    (cfg : RetryConfig) (attempt remaining : ℕ) (m : String)
    (hm : op attempt = Except.error m)
    (hret : (categorizeError m (stk attempt) ctx (ts attempt)).retryable = false) :
    runRetryAux op stk ts rand ctx cfg attempt remaining
      = (Except.error (categorizeError m (stk attempt) ctx (ts attempt)), 1, []) := by
  rw [runRetryAux, hm]
  cases remaining with
  | zero => rfl
  | succ r => simp [hret]

theorem runRetryAux_first_ok {α : Type} (op : ℕ → Except String α)
    (stk ts : ℕ → String) (rand : ℕ → ℚ) (ctx : List (String × String))
    (cfg : RetryConfig) (attempt remaining : ℕ) (v : α)
    (hv : op attempt = Except.ok v) :
    runRetryAux op stk ts rand ctx cfg attempt remaining = (Except.ok v, 1, []) := by
  rw [runRetryAux, hv]

theorem runRetryAux_succeeds_after {α : Type} (op : ℕ → Except String α)
    (stk ts : ℕ → String) (rand : ℕ → ℚ) (ctx : List (String × String))
    (cfg : RetryConfig) (v : α) :
    ∀ (k attempt remaining : ℕ), k ≤ remaining →
      (∀ n, n < k → ∃ m, op (attempt + n) = Except.error m ∧
        (categorizeError m (stk (attempt + n)) ctx (ts (attempt + n))).retryable
          = true) →
      op (attempt + k) = Except.ok v →
      runRetryAux op stk ts rand ctx cfg attempt remaining
        = (Except.ok v, k + 1,
           (List.range k).map
             (fun i => calculateDelay cfg (attempt + i) (rand (attempt + i)))) := by
  intro k
  induction k with
  | zero =>
    intro attempt remaining _ _ hok
    rw [Nat.add_zero] at hok
    simp [runRetryAux_first_ok op stk ts rand ctx cfg attempt remaining v hok]
  | succ k ih =>
    intro attempt remaining hle hfail hok
    obtain ⟨r, rfl⟩ : ∃ r, remaining = r + 1 :=
      ⟨remaining - 1, by omega⟩
    obtain ⟨m, hm, hret⟩ := hfail 0 (Nat.succ_pos k)
    rw [Nat.add_zero] at hm hret
    rw [runRetryAux, hm]
    simp only [hret, if_true]
    have hrec := ih (attempt + 1) r (by omega)
      (fun n hn => by
        obtain ⟨m', hm', hret'⟩ := hfail (n + 1) (by omega)
        refine ⟨m', ?_, ?_⟩ <;>
          [skip; skip] <;>
          · have : attempt + (n + 1) = attempt + 1 + n := by omega
            rw [← this]
            assumption)
      (by
        have : attempt + (k + 1) = attempt + 1 + k := by omega
        rw [← this]; exact hok)
    rw [hrec]
    simp only [Prod.mk.injEq]
    refine ⟨trivial, trivial, ?_⟩
    rw [List.range_succ_eq_map, List.map_cons, List.map_map, Nat.add_zero]
    congr 1
    apply List.map_congr_left
    intro i _
    simp only [Function.comp_apply]
    have h : attempt + 1 + i = attempt + Nat.succ i := by omega
    rw [h]

theorem calculateDelay_formula (cfg : RetryConfig) (a : ℕ) (r : ℚ)
    (hb : cfg.exponentialBackoff = true) (hbase : 0 ≤ cfg.baseDelay)
    (hr0 : 0 ≤ r) (hr1 : r ≤ 1) :
    ∃ j : ℚ, 0 ≤ j ∧ j ≤ 1 / 10 * (cfg.baseDelay * 2 ^ a) ∧
      calculateDelay cfg a r = min cfg.maxDelay (cfg.baseDelay * 2 ^ a + j) := by
  have he : (0 : ℚ) ≤ cfg.baseDelay * 2 ^ a :=
    mul_nonneg hbase (pow_nonneg (by norm_num) a)
  refine ⟨r * (1 / 10) * (cfg.baseDelay * 2 ^ a), ?_, ?_, ?_⟩
  · positivity
  · calc r * (1 / 10) * (cfg.baseDelay * 2 ^ a)
        ≤ 1 * (1 / 10) * (cfg.baseDelay * 2 ^ a) := by
          apply mul_le_mul_of_nonneg_right _ he
          apply mul_le_mul_of_nonneg_right hr1 (by norm_num)
      _ = 1 / 10 * (cfg.baseDelay * 2 ^ a) := by ring
  · rw [calculateDelay, if_pos hb, min_comm]

theorem calculateDelay_mono (cfg : RetryConfig) (a : ℕ) (r1 r2 : ℚ)
    (hb : cfg.exponentialBackoff = true) (hbase : 0 ≤ cfg.baseDelay)
    (hr11 : r1 ≤ 1) (hr20 : 0 ≤ r2) :
    calculateDelay cfg a r1 ≤ calculateDelay cfg (a + 1) r2 := by
  rw [calculateDelay, calculateDelay, if_pos hb, if_pos hb]
  have he : (0 : ℚ) ≤ cfg.baseDelay * 2 ^ a :=
    mul_nonneg hbase (pow_nonneg (by norm_num) a)
  apply min_le_min _ le_rfl
  have h2 : cfg.baseDelay * 2 ^ (a + 1) = 2 * (cfg.baseDelay * 2 ^ a) := by
    ring
  rw [h2]
  nlinarith [mul_nonneg hr20 he,
    mul_le_mul_of_nonneg_right hr11 he]

/-! ## Synthesis pipeline lemmas -/

theorem contains_bang_eq_false {l : List Char} (h : ∀ c ∈ l, c ≠ '!') :
    l.contains '!' = false := by
  induction l with
  | nil => rfl
  | cons c t ih =>
    have hc : ('!' == c) = false :=
      beq_eq_false_iff_ne.mpr (Ne.symm (h c (List.mem_cons_self c t)))
    have ht := ih (fun x hx => h x (List.mem_cons_of_mem c hx))
    simp only [List.contains_cons, hc, ht, Bool.or_self]

theorem specSegments_length (cbs : List (List Char × List ℕ)) :
    (specSegments cbs).length = 2 * cbs.length - 1 := by
  induction cbs with
  | nil => rfl
  | cons p rest ih =>
    cases rest with
    | nil => rfl
    | cons q rs =>
      obtain ⟨c, b⟩ := p
      have hstep : specSegments ((c, b) :: q :: rs)
          = b :: generateNaturalPause c :: specSegments (q :: rs) := rfl
      rw [hstep]
      simp only [List.length_cons] at *
      omega

theorem elevenChunkLoop_spec (synth : ℕ → List Char → Except String (List ℕ)) :
    ∀ (cbs : List (List Char × List ℕ)) (i : ℕ),
      (∀ k (hk : k < cbs.length),
        synth (i + k) (cbs.get ⟨k, hk⟩).1 = Except.ok (cbs.get ⟨k, hk⟩).2) →
      elevenChunkLoop synth i (cbs.map Prod.fst) = Except.ok (specSegments cbs) := by
  intro cbs
  induction cbs with
  | nil => intro i _; rfl
  | cons p rest ih =>
    intro i h
    obtain ⟨c, b⟩ := p
    have h0 := h 0 (by simp)
    simp only [List.get] at h0
    rw [Nat.add_zero] at h0
    have hrest : ∀ k (hk : k < rest.length),
        synth (i + 1 + k) (rest.get ⟨k, hk⟩).1
          = Except.ok (rest.get ⟨k, hk⟩).2 := by
      intro k hk
      have hk' : k + 1 < ((c, b) :: rest).length := by
        simp only [List.length_cons]; omega
      have := h (k + 1) hk'
      have hadd : i + (k + 1) = i + 1 + k := by omega
      rw [hadd] at this
      exact this
    cases rest with
    | nil =>
      simp only [List.map_cons, List.map_nil]
      rw [elevenChunkLoop, h0]
      rfl
    | cons q rs =>
      simp only [List.map_cons]
      rw [elevenChunkLoop, h0]
      have hrec := ih (i + 1) hrest
      simp only [List.map_cons] at hrec
      rw [hrec]
      rfl

theorem generateWithElevenLabs_ok (synth : ℕ → List Char → Except String (List ℕ))
    (ffmpegRun : Option (List ℕ)) (enhance : Bool)
    (cbs : List (List Char × List ℕ))
    (h : ∀ k (hk : k < cbs.length),
      synth (0 + k) (cbs.get ⟨k, hk⟩).1 = Except.ok (cbs.get ⟨k, hk⟩).2) :
    generateWithElevenLabs synth ffmpegRun enhance (cbs.map Prod.fst)
      = Except.ok
          { success := true,
            audio := if enhance
              then enhanceAudioForRealism ffmpegRun ((specSegments cbs).flatten)
              else (specSegments cbs).flatten,
            enhancedAudio := enhance, provider := "elevenlabs" } := by
  rw [generateWithElevenLabs, elevenChunkLoop_spec synth cbs 0 h]

/-- Characterization of the pause buffer lengths:
a chunk containing `'!'` yields 132300 silence bytes (1.5 s), any other
chunk 70560 bytes (0.8 s). -/
theorem generateNaturalPause_cases (c : List Char) :
    (c.contains '!' = true → generateNaturalPause c = List.replicate 132300 0) ∧
    (c.contains '!' = false → generateNaturalPause c = List.replicate 70560 0) := by
  constructor <;> intro h <;> rw [generateNaturalPause] <;> rw [h] <;> norm_num

theorem enhLoop_no_bang :
    ∀ (sents chunks : List (List Char)) (c : List Char),
      (∀ s ∈ sents, ∀ ch ∈ s, isTerminator ch = false) →
      (∀ x ∈ chunks, ∀ ch ∈ x, ch ≠ '!') →
      (∀ ch ∈ c, ch ≠ '!') →
      (∀ x ∈ (enhLoop sents chunks c).1, ∀ ch ∈ x, ch ≠ '!') ∧
      (∀ ch ∈ (enhLoop sents chunks c).2, ch ≠ '!') := by
  intro sents
  induction sents with
  | nil => intro chunks c _ hch hc; exact ⟨hch, hc⟩
  | cons s rest ih =>
    intro chunks c hmem hch hc
    rw [enhLoop]
    have hsns : ∀ ch ∈ s, ch ≠ '!' := by
      intro ch hch' heq
      have := hmem s (List.mem_cons_self s rest) ch hch'
      rw [heq] at this
      exact absurd this (by decide)
    have hmem' : ∀ x ∈ rest, ∀ ch ∈ x, isTerminator ch = false := fun x hx =>
      hmem x (List.mem_cons_of_mem s hx)
    by_cases h1 : (trimChars s).isEmpty
    · rw [if_pos h1]; exact ih chunks c hmem' hch hc
    · rw [if_neg h1]
      by_cases h2 : 500 < c.length + s.length
      · rw [if_pos h2]
        apply ih _ _ hmem'
        · by_cases h3 : c.isEmpty
          · simpa [h3] using hch
          · rw [if_neg h3]
            intro x hx
            rcases List.mem_append.mp hx with hx | hx
            · exact hch x hx
            · rw [List.mem_singleton.mp hx]
              exact fun ch hc' => hc ch (trimChars_subset c hc')
        · exact hsns
      · rw [if_neg h2]
        apply ih _ _ hmem' hch
        intro ch hc'
        rcases List.mem_append.mp hc' with hx | hx
        · rcases List.mem_append.mp hx with hx | hx
          · exact hc ch hx
          · by_cases h3 : c.isEmpty
            · rw [if_pos h3] at hx; simp at hx
            · rw [if_neg h3] at hx
              intro heq
              rw [heq] at hx
              simp at hx
        · exact hsns ch hx

theorem splitEnhancedScript_no_bang (script : List Char) :
    ∀ chunk ∈ splitEnhancedScript script, chunk.contains '!' = false := by
  rw [splitEnhancedScript_eq]
  have hpieces := splitTerm_pieces script
  have hloop := enhLoop_no_bang (splitTerm script) [] []
    hpieces (by simp) (by simp)
  set r := enhLoop (splitTerm script) [] [] with hr
  intro chunk hchunk
  by_cases h : r.2.isEmpty
  · rw [if_pos h] at hchunk
    exact contains_bang_eq_false (hloop.1 chunk hchunk)
  · rw [if_neg h] at hchunk
    rcases List.mem_append.mp hchunk with hc | hc
    · exact contains_bang_eq_false (hloop.1 chunk hc)
    · rw [List.mem_singleton.mp hc]
      exact contains_bang_eq_false
        (fun ch hch => hloop.2 ch (trimChars_subset r.2 hch))

/-! ## Provider-loop lemmas -/

/-- The message the aggregate failure reports: the failure message of
the last provider that was available and attempted (derived from the
loop of `generateAudio`). -/
def lastMsgAux (avail : String → Bool) (attemptP : String → Except String Unit) :
    List String → Option String → Option String
  | [], acc => acc
  | p :: rest, acc =>
    if avail p then
      match attemptP p with
      | .ok _ => lastMsgAux avail attemptP rest acc
      | .error m => lastMsgAux avail attemptP rest (some m)
    else lastMsgAux avail attemptP rest acc

theorem generateAudioLoop_all_fail (avail : String → Bool)
    (attemptP : String → Except String Unit) (cfgProvider voice : String) :
    ∀ (ps : List String) (acc : Option String),
      (∀ p ∈ ps, avail p = false ∨ ∃ m, attemptP p = Except.error m) →
      generateAudioLoop avail attemptP cfgProvider voice ps acc
        = { success := false, provider := "none", voice := voice,
            error := some (lastErrorOrDefault (lastMsgAux avail attemptP ps acc)),
            fallbackUsed := none, originalProvider := none } := by
  intro ps
  induction ps with
  | nil => intro acc _; rfl
  | cons p rest ih =>
    intro acc h
    rw [generateAudioLoop, lastMsgAux]
    rcases h p (List.mem_cons_self p rest) with hp | ⟨m, hm⟩
    · rw [hp]
      simp only [Bool.false_eq_true, if_false]
      exact ih acc (fun q hq => h q (List.mem_cons_of_mem p hq))
    · by_cases hav : avail p
      · rw [if_pos hav, if_pos hav, hm]
        exact ih (some m) (fun q hq => h q (List.mem_cons_of_mem p hq))
      · rw [if_neg hav, if_neg hav]
        exact ih acc (fun q hq => h q (List.mem_cons_of_mem p hq))

theorem lastErrorOrDefault_ne_empty (o : Option String) :
    lastErrorOrDefault o ≠ "" := by
  cases o with
  | none => simp [lastErrorOrDefault]
  | some m =>
    rw [lastErrorOrDefault]
    by_cases hm : m = ""
    · simp [hm]
    · simp [hm]

/-! ## Clamping lemma -/

theorem clampJS_spec (lo hi x : ℚ) (h : lo ≤ hi) :
    lo ≤ clampJS lo hi x ∧ clampJS lo hi x ≤ hi ∧
    (x < lo → clampJS lo hi x = lo) ∧ (hi < x → clampJS lo hi x = hi) ∧
    (lo ≤ x → x ≤ hi → clampJS lo hi x = x) := by
  unfold clampJS
  refine ⟨le_max_left lo _, max_le h (min_le_left hi x), ?_, ?_, ?_⟩
  · intro hx
    rw [min_eq_right (le_of_lt (lt_of_lt_of_le hx h)), max_eq_left (le_of_lt hx)]
  · intro hx
    rw [min_eq_left (le_of_lt hx), max_eq_right h]
  · intro h1 h2
    rw [min_eq_right h2, max_eq_right h1]

/-! ## Claim theorems -/

/-- C1, counterexample: the chunk-planner claim fails on the code.  For
`splitScript "aaaa.b.cd. e" 5`, the planner (a) drops the trailing
fragment " e" that has no sentence terminator, so no whitespace
normalization can recover the input from the chunks, and (b) emits the
chunk "b. cd." of length 6 > maxChunkLength = 5 although every matched
sentence has length ≤ 5.  For `splitEnhancedScript "Hi! Bye."`, the
single chunk "Hi.  Bye" rewrites the `!` to `.` and drops the final `.`,
so concatenation does not reproduce the input modulo whitespace either. -/
theorem C1_counterexample :
    splitScript ("aaaa.b.cd. e".data) 5 = ["aaaa.".data, "b. cd.".data] ∧
    stripWs ((splitScript ("aaaa.b.cd. e".data) 5).flatten)
      ≠ stripWs ("aaaa.b.cd. e".data) ∧
    ("b. cd.".data).length = 6 ∧
    (∀ s ∈ sentencesOf ("aaaa.b.cd. e".data), s.length ≤ 5) ∧
    splitEnhancedScript ("Hi! Bye.".data) = ["Hi.  Bye".data] ∧
    stripWs ((splitEnhancedScript ("Hi! Bye.".data)).flatten)
      ≠ stripWs ("Hi! Bye.".data) := by decide

/-- C1, amended: for every input and every `maxChunkLength`,
(1) concatenating the `splitScript` chunks reproduces — after removing
whitespace — the concatenation of the regex-matched sentences, which is
the input minus a leading run of terminators and minus a trailing
fragment that lacks a terminator (the whole input when nothing matches);
(2) that decomposition of the input exists; (3) a `splitScript` chunk
exceeds `maxChunkLength + 1` only when it consists of a single sentence
(possibly trimmed); (4) concatenating the `splitEnhancedScript` chunks
reproduces the input after removing whitespace and sentence-terminator
punctuation (the split rewrites terminator runs into ". " joiners);
(5) a `splitEnhancedScript` chunk exceeds 502 units only when it is a
single (trimmed) sentence piece. -/
theorem C1_chunk_planner_amended (script : List Char) (maxLen : ℕ) :
    stripWs ((splitScript script maxLen).flatten)
      = stripWs ((sentencesOf script).flatten) ∧
    (∃ pre suf : List Char,
      (∀ c ∈ pre, isTerminator c = true) ∧
      (∀ c ∈ suf, isTerminator c = false) ∧
      script = pre ++ (sentencesOf script).flatten ++ suf) ∧
    (∀ chunk ∈ splitScript script maxLen,
      chunk.length ≤ maxLen + 1 ∨
        ∃ s ∈ sentencesOf script, chunk = trimChars s ∨ chunk = s) ∧
    stripPW ((splitEnhancedScript script).flatten) = stripPW script ∧
    (∀ chunk ∈ splitEnhancedScript script,
      chunk.length ≤ 502 ∨ ∃ p ∈ splitTerm script, chunk = trimChars p) :=
  ⟨splitScript_concat script maxLen, sentencesOf_decomp script,
   splitScript_bound script maxLen, splitEnhancedScript_concat script,
   splitEnhancedScript_bound script⟩

/-- C1, witness: the amended invariant evaluated on "Hi. Bye" with the
coarse limit 4000. -/
theorem C1_chunk_planner_amended_witness :
    stripWs ((splitScript ("Hi. Bye".data) 4000).flatten)
      = stripWs ((sentencesOf ("Hi. Bye".data)).flatten) ∧
    ("Hi.".data.length ≤ 4000 + 1 ∨
      ∃ s ∈ sentencesOf ("Hi. Bye".data),
        "Hi.".data = trimChars s ∨ "Hi.".data = s) ∧
    stripPW ((splitEnhancedScript ("Hi. Bye".data)).flatten)
      = stripPW ("Hi. Bye".data) :=
  ⟨(C1_chunk_planner_amended ("Hi. Bye".data) 4000).1,
   (C1_chunk_planner_amended ("Hi. Bye".data) 4000).2.2.1 ("Hi.".data) (by decide),
   (C1_chunk_planner_amended ("Hi. Bye".data) 4000).2.2.2.1⟩

/-- C2: the retry controller makes exactly `maxRetries + 1` attempts and
fails when the operation always fails retryably; exactly 1 attempt when
the first classification is non-retryable; and returns immediately after
a first successful attempt with no further attempts and no delay. -/
theorem C2_retry_attempt_counts {α : Type} (op : ℕ → Except String α)
    (stk ts : ℕ → String) (rand : ℕ → ℚ) (ctx : List (String × String))
    (cfg : RetryConfig) :
    ((∀ n, ∃ m, op n = Except.error m ∧
        (categorizeError m (stk n) ctx (ts n)).retryable = true) →
      (∃ info, (executeWithRetry op stk ts rand ctx cfg).1
        = Except.error info) ∧
      (executeWithRetry op stk ts rand ctx cfg).2.1 = cfg.maxRetries + 1) ∧
    (∀ m, op 0 = Except.error m →
      (categorizeError m (stk 0) ctx (ts 0)).retryable = false →
      executeWithRetry op stk ts rand ctx cfg
        = (Except.error (categorizeError m (stk 0) ctx (ts 0)), 1, [])) ∧
    (∀ v, op 0 = Except.ok v →
      executeWithRetry op stk ts rand ctx cfg = (Except.ok v, 1, [])) := by
  refine ⟨?_, ?_, ?_⟩
  · intro h
    exact runRetryAux_always_fail op stk ts rand ctx cfg h cfg.maxRetries 0
  · intro m hm hret
    exact runRetryAux_first_not_retryable op stk ts rand ctx cfg 0
      cfg.maxRetries m hm hret
  · intro v hv
    exact runRetryAux_first_ok op stk ts rand ctx cfg 0 cfg.maxRetries v hv

/-- C2, witness: the three attempt-count behaviours at concrete
operations ("timeout" is retryable, "invalid" is not) with
maxRetries = 2. -/
theorem C2_retry_attempt_counts_witness :
    ((∃ info,
        (executeWithRetry (fun _ => (Except.error "timeout" : Except String ℕ))
          (fun _ => "") (fun _ => "") (fun _ => 0) []
          { maxRetries := 2, baseDelay := 1, maxDelay := 10,
            exponentialBackoff := true, retryableErrors := [] }).1
          = Except.error info) ∧
      (executeWithRetry (fun _ => (Except.error "timeout" : Except String ℕ))
        (fun _ => "") (fun _ => "") (fun _ => 0) []
        { maxRetries := 2, baseDelay := 1, maxDelay := 10,
          exponentialBackoff := true, retryableErrors := [] }).2.1 = 2 + 1) ∧
    executeWithRetry (fun _ => (Except.error "invalid" : Except String ℕ))
        (fun _ => "") (fun _ => "") (fun _ => 0) []
        { maxRetries := 2, baseDelay := 1, maxDelay := 10,
          exponentialBackoff := true, retryableErrors := [] }
      = (Except.error (categorizeError "invalid" "" [] ""), 1, []) ∧
    executeWithRetry (fun _ => (Except.ok 7 : Except String ℕ))
        (fun _ => "") (fun _ => "") (fun _ => 0) []
        { maxRetries := 2, baseDelay := 1, maxDelay := 10,
          exponentialBackoff := true, retryableErrors := [] }
      = (Except.ok 7, 1, []) :=
  ⟨(C2_retry_attempt_counts (fun _ => (Except.error "timeout" : Except String ℕ))
      (fun _ => "") (fun _ => "") (fun _ => 0) []
      { maxRetries := 2, baseDelay := 1, maxDelay := 10,
        exponentialBackoff := true, retryableErrors := [] }).1
      (fun _ => ⟨"timeout", rfl, by decide⟩),
   (C2_retry_attempt_counts (fun _ => (Except.error "invalid" : Except String ℕ))
      (fun _ => "") (fun _ => "") (fun _ => 0) []
      { maxRetries := 2, baseDelay := 1, maxDelay := 10,
        exponentialBackoff := true, retryableErrors := [] }).2.1
      "invalid" rfl (by decide),
   (C2_retry_attempt_counts (fun _ => (Except.ok 7 : Except String ℕ))
      (fun _ => "") (fun _ => "") (fun _ => 0) []
      { maxRetries := 2, baseDelay := 1, maxDelay := 10,
        exponentialBackoff := true, retryableErrors := [] }).2.2
      7 rfl⟩

/-- C5: with exponential backoff on and an operation failing retryably
exactly `k ≤ maxRetries` times then succeeding, the controller returns
success after exactly `k + 1` attempts with the backoff delays
`calculateDelay 0 .. calculateDelay (k-1)`; every such delay equals
`min(maxDelay, baseDelay * 2^attempt + jitter)` with
`0 ≤ jitter ≤ 10%` of the exponential term, and the delay sequence is
non-decreasing (hence non-decreasing until `maxDelay` is reached). -/
theorem C5_backoff_success_after_k {α : Type} (op : ℕ → Except String α)
    (stk ts : ℕ → String) (rand : ℕ → ℚ) (ctx : List (String × String))
    (cfg : RetryConfig) (v : α) (k : ℕ)
    (hb : cfg.exponentialBackoff = true) (hbase : 0 ≤ cfg.baseDelay)
    (hr : ∀ n, 0 ≤ rand n ∧ rand n ≤ 1)
    (hk : k ≤ cfg.maxRetries)
    (hfail : ∀ n, n < k → ∃ m, op n = Except.error m ∧
      (categorizeError m (stk n) ctx (ts n)).retryable = true)
    (hok : op k = Except.ok v) :
    executeWithRetry op stk ts rand ctx cfg
      = (Except.ok v, k + 1,
         (List.range k).map (fun a => calculateDelay cfg a (rand a))) ∧
    (∀ a, ∃ j : ℚ, 0 ≤ j ∧ j ≤ 1 / 10 * (cfg.baseDelay * 2 ^ a) ∧
      calculateDelay cfg a (rand a)
        = min cfg.maxDelay (cfg.baseDelay * 2 ^ a + j)) ∧
    (∀ a, calculateDelay cfg a (rand a)
      ≤ calculateDelay cfg (a + 1) (rand (a + 1))) := by
  refine ⟨?_, ?_, ?_⟩
  · rw [executeWithRetry]
    have h := runRetryAux_succeeds_after op stk ts rand ctx cfg v k 0
      cfg.maxRetries hk
      (fun n hn => by simp only [Nat.zero_add]; exact hfail n hn)
      (by simp only [Nat.zero_add]; exact hok)
    simp only [Nat.zero_add] at h
    exact h
  · intro a
    exact calculateDelay_formula cfg a (rand a) hb hbase (hr a).1 (hr a).2
  · intro a
    exact calculateDelay_mono cfg a (rand a) (rand (a + 1)) hb hbase
      (hr a).2 (hr (a + 1)).1

/-- C5, witness: one retryable "timeout" failure then success, with
maxRetries = 3, baseDelay = 1, maxDelay = 10 and zero jitter: success
after 2 attempts with the single backoff delay 1, and the first two
delays are non-decreasing. -/
theorem C5_backoff_success_after_k_witness :
    executeWithRetry
        (fun n => if n = 0 then (Except.error "timeout" : Except String ℕ)
          else Except.ok 7)
        (fun _ => "") (fun _ => "") (fun _ => 0) []
        { maxRetries := 3, baseDelay := 1, maxDelay := 10,
          exponentialBackoff := true, retryableErrors := [] }
      = (Except.ok 7, 2, [1]) ∧
    calculateDelay
        { maxRetries := 3, baseDelay := 1, maxDelay := 10,
          exponentialBackoff := true, retryableErrors := [] } 0 0
      ≤ calculateDelay
        { maxRetries := 3, baseDelay := 1, maxDelay := 10,
          exponentialBackoff := true, retryableErrors := [] } 1 0 := by
  have h := C5_backoff_success_after_k
    (fun n => if n = 0 then (Except.error "timeout" : Except String ℕ)
      else Except.ok 7)
    (fun _ => "") (fun _ => "") (fun _ => 0) []
    { maxRetries := 3, baseDelay := 1, maxDelay := 10,
      exponentialBackoff := true, retryableErrors := [] }
    7 1 rfl (by norm_num) (fun _ => ⟨le_refl 0, by norm_num⟩) (by norm_num)
    (fun n hn => by
      interval_cases n
      exact ⟨"timeout", rfl, by decide⟩)
    rfl
  refine ⟨?_, h.2.2 0⟩
  rw [h.1]
  simp only [List.range_succ, List.range_zero, List.nil_append, List.map_cons,
    List.map_nil, calculateDelay, Prod.mk.injEq]
  norm_num

/-- C3, counterexample: the pause heuristic keys on *containing* an
exclamation mark, not *ending* in one.  The chunk "Wow! Great." ends in
a period yet its following silence equals (is not strictly shorter than)
the silence after the chunk "Wow!", which ends in an exclamation mark —
both are the 1500 ms buffer. -/
theorem C3_counterexample :
    (generateNaturalPause ("Wow! Great.".data)).length
      = (generateNaturalPause ("Wow!".data)).length ∧
    ("Wow! Great.".data).getLast? = some '.' ∧
    ("Wow!".data).getLast? = some '!' ∧
    ¬ ((generateNaturalPause ("Wow! Great.".data)).length
        < (generateNaturalPause ("Wow!".data)).length) := by
  have h1 : ("Wow! Great.".data).contains '!' = true := by decide
  have h2 : ("Wow!".data).contains '!' = true := by decide
  rw [(generateNaturalPause_cases ("Wow! Great.".data)).1 h1,
    (generateNaturalPause_cases ("Wow!".data)).1 h2]
  exact ⟨rfl, by decide, by decide, lt_irrefl _⟩

/-- C3, amended: when every chunk synthesizes successfully, the
reassembled buffer is exactly the per-chunk buffers in index order with
one silence segment between consecutive chunks and none after the last
(`2n - 1` segments); the silence after a chunk *containing* an
exclamation mark (1500 ms, 132300 bytes) is strictly longer than after
one that does not (800 ms, 70560 bytes); and because
`splitEnhancedScript` strips every `!`, no chunk of the integrated
pipeline ever triggers the longer pause. -/
theorem C3_reassembly_amended :
    (∀ (synth : ℕ → List Char → Except String (List ℕ))
       (ffmpegRun : Option (List ℕ)) (cbs : List (List Char × List ℕ)),
      (∀ k (hk : k < cbs.length),
        synth (0 + k) (cbs.get ⟨k, hk⟩).1 = Except.ok (cbs.get ⟨k, hk⟩).2) →
      generateWithElevenLabs synth ffmpegRun false (cbs.map Prod.fst)
        = Except.ok
            { success := true, audio := (specSegments cbs).flatten,
              enhancedAudio := false, provider := "elevenlabs" } ∧
      (specSegments cbs).length = 2 * cbs.length - 1) ∧
    (∀ c : List Char,
      (c.contains '!' = true →
        generateNaturalPause c = List.replicate 132300 0) ∧
      (c.contains '!' = false →
        generateNaturalPause c = List.replicate 70560 0)) ∧
    (70560 < 132300) ∧
    (∀ script : List Char, ∀ chunk ∈ splitEnhancedScript script,
      chunk.contains '!' = false) := by
  refine ⟨?_, generateNaturalPause_cases, by norm_num,
    splitEnhancedScript_no_bang⟩
  intro synth ffmpegRun cbs h
  refine ⟨?_, specSegments_length cbs⟩
  have hg := generateWithElevenLabs_ok synth ffmpegRun false cbs h
  simpa using hg

/-- C3, witness: a two-chunk synthesis where both chunks succeed:
the result is chunk0's audio, one silence derived from chunk0, then
chunk1's audio — 3 = 2·2 − 1 segments — and the pipeline's own chunks
("Hi. Bye" enhanced-split) contain no exclamation mark. -/
theorem C3_reassembly_amended_witness :
    generateWithElevenLabs
        (fun k _ => if k = 0 then Except.ok [1] else Except.ok [2])
        none false ["a".data, "b".data]
      = Except.ok
          { success := true,
            audio := (specSegments [("a".data, [1]), ("b".data, [2])]).flatten,
            enhancedAudio := false, provider := "elevenlabs" } ∧
    (specSegments [("a".data, [1]), ("b".data, [2])]).length = 2 * 2 - 1 ∧
    ("Hi.  Bye".data).contains '!' = false := by
  have h := (C3_reassembly_amended).1
    (fun k _ => if k = 0 then Except.ok [1] else Except.ok [2]) none
    [("a".data, [1]), ("b".data, [2])]
    (fun k hk => by
      have h2 : k < 2 := hk
      match k, h2 with
      | 0, _ => rfl
      | 1, _ => rfl)
  exact ⟨h.1, h.2, (C3_reassembly_amended).2.2.2 ("Hi! Bye.".data)
    ("Hi.  Bye".data) (by decide)⟩

/-- C4: `getProviderFallbackOrder` returns a duplicate-free permutation
of the default provider list; a preferred provider that is in the
default set is promoted to position 0 with the others keeping their
relative order (they are the filtered default list); any other name
(including "auto") yields the default ordering unchanged. -/
theorem C4_provider_fallback_order (pref : String) :
    (getProviderFallbackOrder pref).Nodup ∧
    (getProviderFallbackOrder pref).Perm defaultTTSProviders ∧
    (pref ∈ defaultTTSProviders →
      getProviderFallbackOrder pref
        = pref :: defaultTTSProviders.filter (fun q => q ≠ pref)) ∧
    (pref ∉ defaultTTSProviders →
      getProviderFallbackOrder pref = defaultTTSProviders) := by
  by_cases h1 : pref = "azure"
  · subst h1
    exact ⟨by decide, by decide, fun _ => by decide,
      fun h => absurd (by decide) h⟩
  · by_cases h2 : pref = "elevenlabs"
    · subst h2
      exact ⟨by decide, by decide, fun _ => by decide,
        fun h => absurd (by decide) h⟩
    · have hnm : pref ∉ defaultTTSProviders := by
        intro hm
        rcases List.mem_cons.mp hm with hm | hm
        · exact h1 hm
        · rcases List.mem_cons.mp hm with hm | hm
          · exact h2 hm
          · simp at hm
      have horder : getProviderFallbackOrder pref = defaultTTSProviders := by
        unfold getProviderFallbackOrder
        by_cases h3 : pref = "auto"
        · rw [if_pos h3]
        · rw [if_neg h3, if_neg hnm]
      refine ⟨?_, ?_, fun hm => absurd hm hnm, fun _ => horder⟩
      · rw [horder]; decide
      · rw [horder]

/-- C4, witness: requesting "elevenlabs" promotes it to position 0
ahead of "azure", without duplicates. -/
theorem C4_provider_fallback_order_witness :
    (getProviderFallbackOrder "elevenlabs").Nodup ∧
    getProviderFallbackOrder "elevenlabs"
      = "elevenlabs" :: defaultTTSProviders.filter (fun q => q ≠ "elevenlabs") :=
  ⟨(C4_provider_fallback_order "elevenlabs").1,
   (C4_provider_fallback_order "elevenlabs").2.2.1 (by decide)⟩

/-- C6, counterexample: when every provider fails, `generateAudio`
returns `success = false`, but the `error` field is just the last raw
failure message — it contains neither the classification code of that
failure, nor its suggestion string, nor the names of the attempted
providers. -/
theorem C6_counterexample :
    (generateAudio (fun _ => true)
        (fun p => Except.error
          (if p = "elevenlabs" then "mystery glitch 42" else "azure boom"))
        "azure" "adam").success = false ∧
    (generateAudio (fun _ => true)
        (fun p => Except.error
          (if p = "elevenlabs" then "mystery glitch 42" else "azure boom"))
        "azure" "adam").error = some "mystery glitch 42" ∧
    jsIncludes "mystery glitch 42"
      ((categorizeError "mystery glitch 42" "" [] "t").code) = false ∧
    jsIncludes "mystery glitch 42"
      ((categorizeError "mystery glitch 42" "" [] "t").suggestion) = false ∧
    jsIncludes "mystery glitch 42" "azure" = false ∧
    jsIncludes "mystery glitch 42" "elevenlabs" = false := by decide

/-- C6, amended: whenever every provider in the fallback order is
unavailable or fails, `generateAudio` returns `success = false`,
`provider = "none"`, and an `error` equal to the message of the last
attempted provider's failure (or "All TTS providers failed" when none
was attempted or the message is empty) — a non-empty string, but no
classification, no attempted-provider list and no suggestion field. -/
theorem C6_aggregate_failure_amended (avail : String → Bool)
    (attemptP : String → Except String Unit) (provider voice : String)
    (h : ∀ p ∈ getProviderFallbackOrder provider,
      avail p = false ∨ ∃ m, attemptP p = Except.error m) :
    generateAudio avail attemptP provider voice
      = { success := false, provider := "none", voice := voice,
          error := some (lastErrorOrDefault
            (lastMsgAux avail attemptP (getProviderFallbackOrder provider) none)),
          fallbackUsed := none, originalProvider := none } ∧
    (generateAudio avail attemptP provider voice).success = false ∧
    ∃ m, (generateAudio avail attemptP provider voice).error = some m ∧
      m ≠ "" := by
  have hg : generateAudio avail attemptP provider voice
      = { success := false, provider := "none", voice := voice,
          error := some (lastErrorOrDefault
            (lastMsgAux avail attemptP (getProviderFallbackOrder provider) none)),
          fallbackUsed := none, originalProvider := none } :=
    generateAudioLoop_all_fail avail attemptP provider voice
      (getProviderFallbackOrder provider) none h
  exact ⟨hg, by rw [hg],
    ⟨lastErrorOrDefault
        (lastMsgAux avail attemptP (getProviderFallbackOrder provider) none),
      by rw [hg], lastErrorOrDefault_ne_empty _⟩⟩

/-- C6, witness: every provider unavailable: the aggregate failure has
`success = false` and the default message. -/
theorem C6_aggregate_failure_amended_witness :
    (generateAudio (fun _ => false) (fun _ => Except.error "boom")
        "auto" "adam").success = false ∧
    (generateAudio (fun _ => false) (fun _ => Except.error "boom")
        "auto" "adam").error = some "All TTS providers failed" := by
  have h := C6_aggregate_failure_amended (fun _ => false)
    (fun _ => Except.error "boom") "auto" "adam" (fun p _ => Or.inl rfl)
  exact ⟨by rw [h.1], by rw [h.1]; decide⟩

/-- C7, counterexample: a synthesis request whose enhancement pass fails
(no ffmpeg output) still succeeds and returns the unenhanced buffer, but
its `enhancedAudio` flag remains `true` (the requested option), not
`false` as the claim states. -/
theorem C7_counterexample :
    generateWithElevenLabs (fun _ _ => Except.ok [5]) none true ["hi".data]
      = Except.ok { success := true, audio := [5], enhancedAudio := true,
                    provider := "elevenlabs" } := rfl

/-- C7, amended: if the enhancement pass fails (ffmpeg missing or its
run fails), the request still succeeds and the returned audio is the
unenhanced reassembled buffer — enhancement failure is never surfaced as
a failure of the request — but the `enhancedAudio` flag keeps the value
of the requested option (`true`), it is not reset to `false`. -/
theorem C7_enhancement_failure_amended
    (synth : ℕ → List Char → Except String (List ℕ))
    (cbs : List (List Char × List ℕ))
    (h : ∀ k (hk : k < cbs.length),
      synth (0 + k) (cbs.get ⟨k, hk⟩).1 = Except.ok (cbs.get ⟨k, hk⟩).2) :
    generateWithElevenLabs synth none true (cbs.map Prod.fst)
      = Except.ok
          { success := true, audio := (specSegments cbs).flatten,
            enhancedAudio := true, provider := "elevenlabs" } := by
  have hg := generateWithElevenLabs_ok synth none true cbs h
  simpa [enhanceAudioForRealism] using hg

/-- C7, witness: two successful chunks with a failing enhancement pass:
the result succeeds with the plain reassembled buffer and
`enhancedAudio = true`. -/
theorem C7_enhancement_failure_amended_witness :
    generateWithElevenLabs
        (fun k _ => if k = 0 then Except.ok [1] else Except.ok [2])
        none true ["a".data, "b".data]
      = Except.ok
          { success := true,
            audio := (specSegments [("a".data, [1]), ("b".data, [2])]).flatten,
            enhancedAudio := true, provider := "elevenlabs" } :=
  C7_enhancement_failure_amended
    (fun k _ => if k = 0 then Except.ok [1] else Except.ok [2])
    [("a".data, [1]), ("b".data, [2])]
    (fun k hk => by
      have h2 : k < 2 := hk
      match k, h2 with
      | 0, _ => rfl
      | 1, _ => rfl)

/-- Case characterization used by the retryable-partition and
determinism claims: each rule branch pairs a fixed `retryable` flag with
its fixed code. -/
theorem categorizeError_retryable_iff (msg stack : String)
    (ctx : List (String × String)) (timestamp : String) :
    ((categorizeError msg stack ctx timestamp).retryable = true ↔
      (categorizeError msg stack ctx timestamp).code ∈
        ["NETWORK_ERROR", "RATE_LIMIT", "TIMEOUT", "SERVICE_UNAVAILABLE",
         "BROWSER_ERROR", "INTERNAL_SERVER_ERROR"]) ∧
    ((categorizeError msg stack ctx timestamp).retryable = false ↔
      (categorizeError msg stack ctx timestamp).code ∈
        ["AUTH_ERROR", "CONTENT_POLICY", "VALIDATION_ERROR",
         "FILE_SYSTEM_ERROR", "UNKNOWN_ERROR"]) := by
  unfold categorizeError
  by_cases h1 : (jsIncludes msg "fetch" || jsIncludes msg "network" || jsIncludes msg "ECONNREFUSED") = true
  · rw [if_pos h1]
    exact ⟨of_decide_eq_true rfl, of_decide_eq_true rfl⟩
  rw [if_neg h1]
  by_cases h2 : (jsIncludes msg "rate limit" || jsIncludes msg "429" || jsIncludes msg "quota") = true
  · rw [if_pos h2]
    exact ⟨of_decide_eq_true rfl, of_decide_eq_true rfl⟩
  rw [if_neg h2]
  by_cases h3 : (jsIncludes msg "auth" || jsIncludes msg "401" || jsIncludes msg "API_KEY") = true
  · rw [if_pos h3]
    exact ⟨of_decide_eq_true rfl, of_decide_eq_true rfl⟩
  rw [if_neg h3]
  by_cases h4 : (jsIncludes msg "timeout" || jsIncludes msg "ETIMEDOUT") = true
  · rw [if_pos h4]
    exact ⟨of_decide_eq_true rfl, of_decide_eq_true rfl⟩
  rw [if_neg h4]
  by_cases h5 : (jsIncludes msg "503" || jsIncludes msg "502" || jsIncludes msg "504") = true
  · rw [if_pos h5]
    exact ⟨of_decide_eq_true rfl, of_decide_eq_true rfl⟩
  rw [if_neg h5]
  by_cases h6 : (jsIncludes msg "content policy" || jsIncludes msg "safety" || jsIncludes msg "blocked") = true
  · rw [if_pos h6]
    exact ⟨of_decide_eq_true rfl, of_decide_eq_true rfl⟩
  rw [if_neg h6]
  by_cases h7 : (jsIncludes msg "validation" || jsIncludes msg "invalid" || jsIncludes msg "400") = true
  · rw [if_pos h7]
    exact ⟨of_decide_eq_true rfl, of_decide_eq_true rfl⟩
  rw [if_neg h7]
  by_cases h8 : (jsIncludes msg "playwright" || jsIncludes msg "browser" || jsIncludes msg "page") = true
  · rw [if_pos h8]
    exact ⟨of_decide_eq_true rfl, of_decide_eq_true rfl⟩
  rw [if_neg h8]
  by_cases h9 : (jsIncludes msg "ENOENT" || jsIncludes msg "EACCES" || jsIncludes msg "file") = true
  · rw [if_pos h9]
    exact ⟨of_decide_eq_true rfl, of_decide_eq_true rfl⟩
  rw [if_neg h9]
  by_cases h10 : (jsIncludes msg "500" || jsIncludes msg "internal") = true
  · rw [if_pos h10]
    exact ⟨of_decide_eq_true rfl, of_decide_eq_true rfl⟩
  rw [if_neg h10]
  exact ⟨of_decide_eq_true rfl, of_decide_eq_true rfl⟩

/-- C8, counterexample: a failure whose message matches the browser
rule is retryable, but its code is the implementation's string
"BROWSER_ERROR", which is not among the claim's code names (the spec's
taxonomy calls it AUTOMATION_BLOCKED); so "retryable exactly when the
code is one of NETWORK_ERROR, RATE_LIMIT, TIMEOUT, SERVICE_UNAVAILABLE,
AUTOMATION_BLOCKED, INTERNAL_ERROR" is false for the literal codes. -/
theorem C8_counterexample :
    (categorizeError "browser" "" [] "t").retryable = true ∧
    (categorizeError "browser" "" [] "t").code ∉
      ["NETWORK_ERROR", "RATE_LIMIT", "TIMEOUT", "SERVICE_UNAVAILABLE",
       "AUTOMATION_BLOCKED", "INTERNAL_ERROR"] := by decide

/-- C8, amended: with the implementation's spellings of the spec's
taxonomy (AUTOMATION_BLOCKED is BROWSER_ERROR, INTERNAL_ERROR is
INTERNAL_SERVER_ERROR, FILESYSTEM_ERROR is FILE_SYSTEM_ERROR, UNKNOWN
is UNKNOWN_ERROR), `categorizeError` marks a failure retryable exactly
when its code is NETWORK_ERROR, RATE_LIMIT, TIMEOUT,
SERVICE_UNAVAILABLE, BROWSER_ERROR or INTERNAL_SERVER_ERROR, and
non-retryable exactly for AUTH_ERROR, CONTENT_POLICY, VALIDATION_ERROR,
FILE_SYSTEM_ERROR and UNKNOWN_ERROR; when no rule of the ordered table
matches, the code is UNKNOWN_ERROR and retryable is false. -/
theorem C8_retryable_partition (msg stack : String)
    (ctx : List (String × String)) (timestamp : String) :
    ((categorizeError msg stack ctx timestamp).retryable = true ↔
      (categorizeError msg stack ctx timestamp).code ∈
        ["NETWORK_ERROR", "RATE_LIMIT", "TIMEOUT", "SERVICE_UNAVAILABLE",
         "BROWSER_ERROR", "INTERNAL_SERVER_ERROR"]) ∧
    ((categorizeError msg stack ctx timestamp).retryable = false ↔
      (categorizeError msg stack ctx timestamp).code ∈
        ["AUTH_ERROR", "CONTENT_POLICY", "VALIDATION_ERROR",
         "FILE_SYSTEM_ERROR", "UNKNOWN_ERROR"]) ∧
    ((∀ pat ∈ allErrorPatterns, jsIncludes msg pat = false) →
      (categorizeError msg stack ctx timestamp).code = "UNKNOWN_ERROR" ∧
      (categorizeError msg stack ctx timestamp).retryable = false) := by
  refine ⟨(categorizeError_retryable_iff msg stack ctx timestamp).1,
  (categorizeError_retryable_iff msg stack ctx timestamp).2, ?_⟩
  intro hall
  have p01 : jsIncludes msg "fetch" = false := hall _ (by decide)
  have p02 : jsIncludes msg "network" = false := hall _ (by decide)
  have p03 : jsIncludes msg "ECONNREFUSED" = false := hall _ (by decide)
  have p04 : jsIncludes msg "rate limit" = false := hall _ (by decide)
  have p05 : jsIncludes msg "429" = false := hall _ (by decide)
  have p06 : jsIncludes msg "quota" = false := hall _ (by decide)
  have p07 : jsIncludes msg "auth" = false := hall _ (by decide)
  have p08 : jsIncludes msg "401" = false := hall _ (by decide)
  have p09 : jsIncludes msg "API_KEY" = false := hall _ (by decide)
  have p10 : jsIncludes msg "timeout" = false := hall _ (by decide)
  have p11 : jsIncludes msg "ETIMEDOUT" = false := hall _ (by decide)
  have p12 : jsIncludes msg "503" = false := hall _ (by decide)
  have p13 : jsIncludes msg "502" = false := hall _ (by decide)
  have p14 : jsIncludes msg "504" = false := hall _ (by decide)
  have p15 : jsIncludes msg "content policy" = false := hall _ (by decide)
  have p16 : jsIncludes msg "safety" = false := hall _ (by decide)
  have p17 : jsIncludes msg "blocked" = false := hall _ (by decide)
  have p18 : jsIncludes msg "validation" = false := hall _ (by decide)
  have p19 : jsIncludes msg "invalid" = false := hall _ (by decide)
  have p20 : jsIncludes msg "400" = false := hall _ (by decide)
  have p21 : jsIncludes msg "playwright" = false := hall _ (by decide)
  have p22 : jsIncludes msg "browser" = false := hall _ (by decide)
  have p23 : jsIncludes msg "page" = false := hall _ (by decide)
  have p24 : jsIncludes msg "ENOENT" = false := hall _ (by decide)
  have p25 : jsIncludes msg "EACCES" = false := hall _ (by decide)
  have p26 : jsIncludes msg "file" = false := hall _ (by decide)
  have p27 : jsIncludes msg "500" = false := hall _ (by decide)
  have p28 : jsIncludes msg "internal" = false := hall _ (by decide)
  unfold categorizeError
  rw [if_neg (by simp [p01, p02, p03]), if_neg (by simp [p04, p05, p06]),
    if_neg (by simp [p07, p08, p09]), if_neg (by simp [p10, p11]),
    if_neg (by simp [p12, p13, p14]), if_neg (by simp [p15, p16, p17]),
    if_neg (by simp [p18, p19, p20]), if_neg (by simp [p21, p22, p23]),
    if_neg (by simp [p24, p25, p26]), if_neg (by simp [p27, p28])]
  exact ⟨rfl, rfl⟩

/-- C8, witness: the unmatched message "zzz" falls through to
UNKNOWN_ERROR with retryable = false. -/
theorem C8_retryable_partition_witness :
    (categorizeError "zzz" "s" [] "t").code = "UNKNOWN_ERROR" ∧
    (categorizeError "zzz" "s" [] "t").retryable = false :=
  (C8_retryable_partition "zzz" "s" [] "t").2.2 (by decide)

/-- C9, counterexample: classification is not a function of (message,
context) alone: two failures with the same message "zzz" and the same
(empty) context but different stack traces classify into records whose
`context` fields differ — the UNKNOWN fallback embeds the stack — so
"every field except timestamp is identical" fails even with identical
timestamps. -/
theorem C9_counterexample :
    (categorizeError "zzz" "stackA" [] "t").message
      = (categorizeError "zzz" "stackB" [] "t").message ∧
    (categorizeError "zzz" "stackA" [] "t").timestamp
      = (categorizeError "zzz" "stackB" [] "t").timestamp ∧
    (categorizeError "zzz" "stackA" [] "t").context
      ≠ (categorizeError "zzz" "stackB" [] "t").context := by decide

/-- C9, amended: classification is total and deterministic: for two
invocations on failures with the same message and the same context, the
`code`, `message`, `severity`, `suggestion` and `retryable` fields are
always identical and only `timestamp` tracks the clock; the `context`
fields are also identical whenever the two failures carry the same
stack trace, and always for classified (non-UNKNOWN_ERROR) failures —
the UNKNOWN_ERROR fallback embeds the failure's stack in `context`.
The code emitted is always one of the eleven taxonomy codes
(`categorizeError` never itself fails). -/
theorem C9_classification_deterministic (msg stack1 stack2 : String)
    (ctx : List (String × String)) (t1 t2 : String) :
    (categorizeError msg stack1 ctx t1).code
      = (categorizeError msg stack2 ctx t2).code ∧
    (categorizeError msg stack1 ctx t1).message
      = (categorizeError msg stack2 ctx t2).message ∧
    (categorizeError msg stack1 ctx t1).severity
      = (categorizeError msg stack2 ctx t2).severity ∧
    (categorizeError msg stack1 ctx t1).suggestion
      = (categorizeError msg stack2 ctx t2).suggestion ∧
    (categorizeError msg stack1 ctx t1).retryable
      = (categorizeError msg stack2 ctx t2).retryable ∧
    (categorizeError msg stack1 ctx t1).timestamp = t1 ∧
    (categorizeError msg stack2 ctx t2).timestamp = t2 ∧
    (stack1 = stack2 →
      (categorizeError msg stack1 ctx t1).context
        = (categorizeError msg stack2 ctx t2).context) ∧
    ((categorizeError msg stack1 ctx t1).code ≠ "UNKNOWN_ERROR" →
      (categorizeError msg stack1 ctx t1).context
        = (categorizeError msg stack2 ctx t2).context) ∧
    (categorizeError msg stack1 ctx t1).code ∈ allErrorCodes := by
  unfold categorizeError
  by_cases h1 : (jsIncludes msg "fetch" || jsIncludes msg "network" || jsIncludes msg "ECONNREFUSED") = true
  · rw [if_pos h1, if_pos h1]
    exact ⟨rfl, rfl, rfl, rfl, rfl, rfl, rfl, fun hse => by cases hse; rfl,
      fun _ => rfl, of_decide_eq_true rfl⟩
  rw [if_neg h1, if_neg h1]
  by_cases h2 : (jsIncludes msg "rate limit" || jsIncludes msg "429" || jsIncludes msg "quota") = true
  · rw [if_pos h2, if_pos h2]
    exact ⟨rfl, rfl, rfl, rfl, rfl, rfl, rfl, fun hse => by cases hse; rfl,
      fun _ => rfl, of_decide_eq_true rfl⟩
  rw [if_neg h2, if_neg h2]
  by_cases h3 : (jsIncludes msg "auth" || jsIncludes msg "401" || jsIncludes msg "API_KEY") = true
  · rw [if_pos h3, if_pos h3]
    exact ⟨rfl, rfl, rfl, rfl, rfl, rfl, rfl, fun hse => by cases hse; rfl,
      fun _ => rfl, of_decide_eq_true rfl⟩
  rw [if_neg h3, if_neg h3]
  by_cases h4 : (jsIncludes msg "timeout" || jsIncludes msg "ETIMEDOUT") = true
  · rw [if_pos h4, if_pos h4]
    exact ⟨rfl, rfl, rfl, rfl, rfl, rfl, rfl, fun hse => by cases hse; rfl,
      fun _ => rfl, of_decide_eq_true rfl⟩
  rw [if_neg h4, if_neg h4]
  by_cases h5 : (jsIncludes msg "503" || jsIncludes msg "502" || jsIncludes msg "504") = true
  · rw [if_pos h5, if_pos h5]
    exact ⟨rfl, rfl, rfl, rfl, rfl, rfl, rfl, fun hse => by cases hse; rfl,
      fun _ => rfl, of_decide_eq_true rfl⟩
  rw [if_neg h5, if_neg h5]
  by_cases h6 : (jsIncludes msg "content policy" || jsIncludes msg "safety" || jsIncludes msg "blocked") = true
  · rw [if_pos h6, if_pos h6]
    exact ⟨rfl, rfl, rfl, rfl, rfl, rfl, rfl, fun hse => by cases hse; rfl,
      fun _ => rfl, of_decide_eq_true rfl⟩
  rw [if_neg h6, if_neg h6]
  by_cases h7 : (jsIncludes msg "validation" || jsIncludes msg "invalid" || jsIncludes msg "400") = true
  · rw [if_pos h7, if_pos h7]
    exact ⟨rfl, rfl, rfl, rfl, rfl, rfl, rfl, fun hse => by cases hse; rfl,
      fun _ => rfl, of_decide_eq_true rfl⟩
  rw [if_neg h7, if_neg h7]
  by_cases h8 : (jsIncludes msg "playwright" || jsIncludes msg "browser" || jsIncludes msg "page") = true
  · rw [if_pos h8, if_pos h8]
    exact ⟨rfl, rfl, rfl, rfl, rfl, rfl, rfl, fun hse => by cases hse; rfl,
      fun _ => rfl, of_decide_eq_true rfl⟩
  rw [if_neg h8, if_neg h8]
  by_cases h9 : (jsIncludes msg "ENOENT" || jsIncludes msg "EACCES" || jsIncludes msg "file") = true
  · rw [if_pos h9, if_pos h9]
    exact ⟨rfl, rfl, rfl, rfl, rfl, rfl, rfl, fun hse => by cases hse; rfl,
      fun _ => rfl, of_decide_eq_true rfl⟩
  rw [if_neg h9, if_neg h9]
  by_cases h10 : (jsIncludes msg "500" || jsIncludes msg "internal") = true
  · rw [if_pos h10, if_pos h10]
    exact ⟨rfl, rfl, rfl, rfl, rfl, rfl, rfl, fun hse => by cases hse; rfl,
      fun _ => rfl, of_decide_eq_true rfl⟩
  rw [if_neg h10, if_neg h10]
  exact ⟨rfl, rfl, rfl, rfl, rfl, rfl, rfl, fun hse => by cases hse; rfl,
    fun hcode => absurd rfl hcode, of_decide_eq_true rfl⟩

/-- C9, witness: the determinism instance for a rate-limit failure
observed at two different times with the same stack. -/
theorem C9_classification_deterministic_witness :
    (categorizeError "rate limit hit" "s" [] "t1").code
      = (categorizeError "rate limit hit" "s" [] "t2").code ∧
    (categorizeError "rate limit hit" "s" [] "t1").context
      = (categorizeError "rate limit hit" "s" [] "t2").context ∧
    (categorizeError "rate limit hit" "s" [] "t1").code ∈ allErrorCodes :=
  ⟨(C9_classification_deterministic "rate limit hit" "s" "s" [] "t1" "t2").1,
   (C9_classification_deterministic
      "rate limit hit" "s" "s" [] "t1" "t2").2.2.2.2.2.2.2.1 rfl,
   (C9_classification_deterministic
      "rate limit hit" "s" "s" [] "t1" "t2").2.2.2.2.2.2.2.2.2⟩

/-- C10: the TTS route clamps caller-supplied parameters into fixed
ranges before synthesis: speed into [0.8, 1.2], voiceStability into
[0.5, 0.9], voiceSimilarity into [0.7, 0.95]; out-of-range values are
silently replaced by the nearest bound and in-range values pass through
unchanged, so synthesis never sees a value outside these ranges. -/
theorem C10_route_clamping (speed voiceStability voiceSimilarity : ℚ) :
    (8 / 10 ≤ (ttsOptionsOf speed voiceStability voiceSimilarity).speed ∧
     (ttsOptionsOf speed voiceStability voiceSimilarity).speed ≤ 12 / 10 ∧
     (speed < 8 / 10 →
       (ttsOptionsOf speed voiceStability voiceSimilarity).speed = 8 / 10) ∧
     (12 / 10 < speed →
       (ttsOptionsOf speed voiceStability voiceSimilarity).speed = 12 / 10) ∧
     (8 / 10 ≤ speed → speed ≤ 12 / 10 →
       (ttsOptionsOf speed voiceStability voiceSimilarity).speed = speed)) ∧
    (5 / 10 ≤ (ttsOptionsOf speed voiceStability voiceSimilarity).voiceStability ∧
     (ttsOptionsOf speed voiceStability voiceSimilarity).voiceStability ≤ 9 / 10 ∧
     (voiceStability < 5 / 10 →
       (ttsOptionsOf speed voiceStability voiceSimilarity).voiceStability
         = 5 / 10) ∧
     (9 / 10 < voiceStability →
       (ttsOptionsOf speed voiceStability voiceSimilarity).voiceStability
         = 9 / 10) ∧
     (5 / 10 ≤ voiceStability → voiceStability ≤ 9 / 10 →
       (ttsOptionsOf speed voiceStability voiceSimilarity).voiceStability
         = voiceStability)) ∧
    (7 / 10 ≤ (ttsOptionsOf speed voiceStability voiceSimilarity).voiceSimilarity ∧
     (ttsOptionsOf speed voiceStability voiceSimilarity).voiceSimilarity
       ≤ 95 / 100 ∧
     (voiceSimilarity < 7 / 10 →
       (ttsOptionsOf speed voiceStability voiceSimilarity).voiceSimilarity
         = 7 / 10) ∧
     (95 / 100 < voiceSimilarity →
       (ttsOptionsOf speed voiceStability voiceSimilarity).voiceSimilarity
         = 95 / 100) ∧
     (7 / 10 ≤ voiceSimilarity → voiceSimilarity ≤ 95 / 100 →
       (ttsOptionsOf speed voiceStability voiceSimilarity).voiceSimilarity
         = voiceSimilarity)) :=
  ⟨clampJS_spec (8 / 10) (12 / 10) speed (by norm_num),
   clampJS_spec (5 / 10) (9 / 10) voiceStability (by norm_num),
   clampJS_spec (7 / 10) (95 / 100) voiceSimilarity (by norm_num)⟩

/-- C10, witness: speed 2 clamps down to 1.2, stability 0 clamps up to
0.5, similarity 1 clamps down to 0.95. -/
theorem C10_route_clamping_witness :
    (ttsOptionsOf 2 0 1).speed = 12 / 10 ∧
    (ttsOptionsOf 2 0 1).voiceStability = 5 / 10 ∧
    (ttsOptionsOf 2 0 1).voiceSimilarity = 95 / 100 :=
  ⟨(C10_route_clamping 2 0 1).1.2.2.2.1 (by norm_num),
   (C10_route_clamping 2 0 1).2.1.2.2.1 (by norm_num),
   (C10_route_clamping 2 0 1).2.2.2.2.2.1 (by norm_num)⟩

end Audium
